import Mathlib

/-!
The processing engine of payment-concurrency-api, embedded in Lean.

A shallow embedding of the Go packages `pkg/pool`, `internal/model`,
`internal/service`, `internal/handler` and `internal/middleware`.

Conventions of the embedding.

* Every call the code makes into its environment is an extra argument of the
  embedded function: `uuid.New().String()` is `id`, each `time.Now()` is a
  `Nat` (nanoseconds), `rand.Float32() < 0.9` is `success`, and the
  pseudo-random draw of a `select` with several ready cases is `pick`.
* A `sync.Map` is an association list with at most one entry per key.
* A pointer stored in a `sync.Map` is the stored value: a mutation through the
  pointer is a `Store` under the same key.
* `float64` amounts are integers (`Int`): the code only adds and subtracts them,
  which is exact on the whole amounts the evaluations use; the rounding of
  other amounts is outside the embedding.
* A Go call either returns, panics or blocks: `Outcome`.
* A Go string is a `String`, except in the rate limiter, whose keys are the
  strings fiber hands out: there a string is owned or a view of the request
  buffer (`middleware.GoString`).
-/

/-- How a Go call ends: it returns a value, it panics, or the goroutine blocks
(a `select` without `default` none of whose cases can proceed). -/
inductive Outcome (α : Type) where
  | ret (a : α)
  | panic (msg : String)
  | blocks
deriving DecidableEq, Repr

/-- Go `select`: of the cases that can proceed one is chosen by a uniform
pseudo-random draw (`pick`); `none` when no case can proceed. -/
def selectCase {α : Type} (ready : List α) (pick : Nat) : Option α :=
  ready.get? (pick % ready.length)

namespace pool

/-- A `pool.Task`. `Submit`, `SubmitAsync` and the queue never look at `Process`,
and the only tasks this repository builds are those of `CreatePayment`, whose
`Process` is `processPayment(ID)`: the task is its `ID`. -/
structure Task where
  ID : String
deriving DecidableEq, Repr

/-- The communication cases of the `select` in `Submit` and `SubmitAsync`. -/
inductive SubmitCase where
  | done
  | send
deriving DecidableEq, Repr

/-- The cases of the `select` in the loop of `worker`. -/
inductive WorkerCase where
  | done
  | recv
deriving DecidableEq, Repr

/-- A `pool.WorkerPool`, with the state of its goroutines.

`taskQueue` is the buffer of the channel, `queueCap` its capacity
(`make(chan Task, queueSize)`), `queueClosed` whether `close(taskQueue)` ran,
`ctxDone` whether `cancel()` ran. Of the worker goroutines, `atSelect` are
about to evaluate the `select` of their loop, `parked` are blocked in it
(queued as receivers on `taskQueue`), and `running` lists the tasks the
others are executing. -/
structure WorkerPool where
  workerCount : Nat
  queueCap : Nat
  taskQueue : List Task
  queueClosed : Bool
  ctxDone : Bool
  atSelect : Nat
  parked : Nat
  running : List Task
deriving DecidableEq, Repr

/-- The error of a pool whose context is cancelled. -/
def errShuttingDown : String := "worker pool is shutting down"

/-- The error of `SubmitAsync` when the send cannot proceed. -/
def errQueueFull : String := "task queue is full"

/-- The panic of the Go runtime for a send on a closed channel. -/
def panicSendOnClosed : String := "send on closed channel"

/-- `NewWorkerPool(workerCount, queueSize)`: no goroutine is started. -/
def NewWorkerPool (workerCount queueSize : Nat) : WorkerPool :=
  { workerCount := workerCount
    queueCap := queueSize
    taskQueue := []
    queueClosed := false
    ctxDone := false
    atSelect := 0
    parked := 0
    running := [] }

/-- `Start`: spawns `workerCount` goroutines running `worker`. -/
def Start (wp : WorkerPool) : WorkerPool :=
  { wp with atSelect := wp.atSelect + wp.workerCount }

/-- Whether `wp.taskQueue <- task` can proceed: the channel is closed (the send
proceeds by panicking), a receiver is parked, or the buffer has room. -/
def sendReady (wp : WorkerPool) : Bool :=
  wp.queueClosed || decide (0 < wp.parked) || decide (wp.taskQueue.length < wp.queueCap)

/-- The cases of the `select` of `Submit` / `SubmitAsync` that can proceed. -/
def submitReady (wp : WorkerPool) : List SubmitCase :=
  (if wp.ctxDone then [SubmitCase.done] else []) ++
    (if sendReady wp then [SubmitCase.send] else [])

/-- The send `wp.taskQueue <- task`, when it proceeds: a panic on a closed
channel, else a hand-over to a parked worker (which starts the task), else an
append to the buffer. -/
def doSend (wp : WorkerPool) (task : Task) : WorkerPool × Outcome (Option String) :=
  if wp.queueClosed then (wp, Outcome.panic panicSendOnClosed)
  else if 0 < wp.parked then
    ({ wp with parked := wp.parked - 1, running := wp.running ++ [task] }, Outcome.ret none)
  else ({ wp with taskQueue := wp.taskQueue ++ [task] }, Outcome.ret none)

/-- `Submit`: a `select` over `ctx.Done()` and the send, without `default`. -/
def Submit (wp : WorkerPool) (task : Task) (pick : Nat) : WorkerPool × Outcome (Option String) :=
  match selectCase (submitReady wp) pick with
  | some SubmitCase.done => (wp, Outcome.ret (some errShuttingDown))
  | some SubmitCase.send => doSend wp task
  | none => (wp, Outcome.blocks)

/-- `SubmitAsync`: the same `select` with a `default` case. -/
def SubmitAsync (wp : WorkerPool) (task : Task) (pick : Nat) :
    WorkerPool × Outcome (Option String) :=
  match selectCase (submitReady wp) pick with
  | some SubmitCase.done => (wp, Outcome.ret (some errShuttingDown))
  | some SubmitCase.send => doSend wp task
  | none => (wp, Outcome.ret (some errQueueFull))

/-- `QueueLength`: `len(wp.taskQueue)`. -/
def QueueLength (wp : WorkerPool) : Nat := wp.taskQueue.length

/-- `WorkerCount`. -/
def WorkerCount (wp : WorkerPool) : Nat := wp.workerCount

/-- The cases of the `select` of `worker` that can proceed: the receive
proceeds when the buffer holds a task or the channel is closed. -/
def workerReady (wp : WorkerPool) : List WorkerCase :=
  (if wp.ctxDone then [WorkerCase.done] else []) ++
    (if !wp.taskQueue.isEmpty || wp.queueClosed then [WorkerCase.recv] else [])

/-- One evaluation of the `select` in the loop of `worker` by a goroutine that
is about to evaluate it: it returns on `ctx.Done()`, starts the task it
receives, returns when the receive reports a closed channel, and parks when
no case can proceed. `none` when no goroutine is at the `select`. -/
def workerSelect (wp : WorkerPool) (pick : Nat) : Option WorkerPool :=
  if wp.atSelect = 0 then none
  else
    match selectCase (workerReady wp) pick with
    | some WorkerCase.done => some { wp with atSelect := wp.atSelect - 1 }
    | some WorkerCase.recv =>
      match wp.taskQueue with
      | task :: rest =>
        some { wp with atSelect := wp.atSelect - 1, taskQueue := rest,
                       running := wp.running ++ [task] }
      | [] => some { wp with atSelect := wp.atSelect - 1 }
    | none => some { wp with atSelect := wp.atSelect - 1, parked := wp.parked + 1 }

/-- The end of `task.Process()` in `worker`: the goroutine logs the result and
goes back to the `select`. `none` when no worker is executing `task`. -/
def workerFinish (wp : WorkerPool) (task : Task) : Option WorkerPool :=
  if task ∈ wp.running then
    some { wp with running := wp.running.erase task, atSelect := wp.atSelect + 1 }
  else none

/-- `Shutdown`: `cancel()`, `close(taskQueue)`, `wg.Wait()`. It returns once
every worker has returned; until then a worker whose `select` picks the
receive still takes a queued task, so the first `drained` queued tasks are
executed and the others stay in the closed channel. -/
def Shutdown (wp : WorkerPool) (drained : Nat) : WorkerPool :=
  { wp with ctxDone := true, queueClosed := true, taskQueue := wp.taskQueue.drop drained,
            atSelect := 0, parked := 0, running := [] }

/-- An action on a pool: a `SubmitAsync` call, a worker evaluating its
`select`, a worker ending its task. -/
inductive Event where
  | submitAsync (task : Task) (pick : Nat)
  | select (pick : Nat)
  | finish (task : Task)
deriving DecidableEq, Repr

/-- Whether the event is the end of a task. -/
def Event.isFinish : Event → Bool
  | Event.finish _ => true
  | _ => false

/-- One event; an event that is not enabled leaves the pool as it is. The
second component counts the submission when it was accepted. -/
def step (wp : WorkerPool) : Event → WorkerPool × Nat
  | Event.submitAsync task pick =>
    let r := SubmitAsync wp task pick
    (r.1, if r.2 = Outcome.ret none then 1 else 0)
  | Event.select pick => ((workerSelect wp pick).getD wp, 0)
  | Event.finish task => ((workerFinish wp task).getD wp, 0)

/-- A run of events, with the number of accepted submissions. -/
def run (wp : WorkerPool) : List Event → WorkerPool × Nat
  | [] => (wp, 0)
  | e :: es =>
    let r := step wp e
    let q := run r.1 es
    (q.1, r.2 + q.2)

/-- The state of a running pool: neither cancelled nor closed, the buffer within
its capacity, no worker parked while a task is buffered, and every worker
goroutine accounted for. -/
structure Inv (wp : WorkerPool) : Prop where
  notClosed : wp.queueClosed = false
  notDone : wp.ctxDone = false
  len_le : wp.taskQueue.length ≤ wp.queueCap
  parked_empty : 0 < wp.parked → wp.taskQueue = []
  workers : wp.atSelect + wp.parked + wp.running.length = wp.workerCount

/-- The pool of `NewWorkerPool(W, Q)` after `Start` and a run of events. -/
def started (W Q : Nat) (es : List Event) : WorkerPool :=
  (run (Start (NewWorkerPool W Q)) es).1

/-- The number of submissions accepted in a run of events from the pool `wp`. -/
def accepted (wp : WorkerPool) (es : List Event) : Nat := (run wp es).2

end pool


/-! ### `sync.Map` -/

/-- A `sync.Map` with string keys: at most one entry per key. -/
abbrev SyncMap (β : Type) := List (String × β)

namespace SyncMap

/-- `m.Load(key)`: the value stored under `key`, if any. -/
def Load {β : Type} : SyncMap β → String → Option β
  | [], _ => none
  | (k, v) :: rest, key => if k = key then some v else Load rest key

/-- `m.Store(key, value)`: replaces the value of `key`, or adds the entry. -/
def Store {β : Type} : SyncMap β → String → β → SyncMap β
  | [], key, value => [(key, value)]
  | (k, v) :: rest, key, value =>
    if k = key then (key, value) :: rest else (k, v) :: Store rest key value

/-- `m.LoadOrStore(key, value)`: the existing value when `key` is present
(`loaded = true`), else stores and returns `value`. -/
def LoadOrStore {β : Type} (m : SyncMap β) (key : String) (value : β) : SyncMap β × β × Bool :=
  match Load m key with
  | some actual => (m, actual, true)
  | none => (Store m key value, value, false)

end SyncMap

/-! ### `internal/model` -/

namespace model

/-- `PaymentStatus`, with its four constants. -/
inductive PaymentStatus where
  | StatusPending
  | StatusProcessing
  | StatusCompleted
  | StatusFailed
deriving DecidableEq, Repr

export PaymentStatus (StatusPending StatusProcessing StatusCompleted StatusFailed)

/-- A `Payment`; `ProcessedAt` is the `*time.Time`, `none` for nil. -/
structure Payment where
  ID : String
  UserID : String
  Amount : Int
  Currency : String
  Status : PaymentStatus
  Description : String
  CreatedAt : Nat
  UpdatedAt : Nat
  ProcessedAt : Option Nat
deriving DecidableEq, Repr

/-- A `CreatePaymentRequest`. -/
structure CreatePaymentRequest where
  UserID : String
  Amount : Int
  Currency : String
  Description : String
deriving DecidableEq, Repr

/-- A `CreatePaymentResponse`. -/
structure CreatePaymentResponse where
  PaymentID : String
  Status : PaymentStatus
  Message : String
deriving DecidableEq, Repr

/-- A `PaymentStats`. -/
structure PaymentStats where
  TotalPayment : Int
  PendingPayments : Int
  ProcessingPayments : Int
  CompletedPayments : Int
  FailedPayments : Int
  TotalAmount : Int
  ActiveGoroutines : Int
deriving DecidableEq, Repr

/-- A `WebhookPayload`. -/
structure WebhookPayload where
  PaymentID : String
  Status : PaymentStatus
  Amount : Int
  TimeStamp : Nat
deriving DecidableEq, Repr

/-- `NewPayment(req)`, with the identifier `uuid.New()` draws and the time
`time.Now()` reads. `ProcessedAt` is left nil. -/
def NewPayment (req : CreatePaymentRequest) (id : String) (now : Nat) : Payment :=
  { ID := id
    UserID := req.UserID
    Amount := req.Amount
    Currency := req.Currency
    Description := req.Description
    Status := StatusPending
    CreatedAt := now
    UpdatedAt := now
    ProcessedAt := none }

end model

/-! ### `internal/service` -/

namespace service

open model

/-- A `PaymentService`.

`webhookChan` is the buffer of the notification channel and `webhookClosed`
whether `close(s.webhookChan)` ran. The `stats` map of the code holds an
`int64` under each counter key and a `float64` under "total_amount"; the two
kinds of entries are kept apart, the counters in `stats` and the amount in
`amounts`. -/
structure PaymentService where
  payments : SyncMap Payment
  workerPool : pool.WorkerPool
  webhookChan : List WebhookPayload
  webhookClosed : Bool
  stats : SyncMap Int
  amounts : SyncMap Int
deriving DecidableEq, Repr

/-- The capacity of the notification channel: `make(chan model.WebhookPayload, 50)`. -/
def webhookCap : Nat := 50

/-- The value of an `int64` after an arithmetic operation: two's complement. -/
def wrapInt64 (x : Int) : Int := (x + 2 ^ 63) % 2 ^ 64 - 2 ^ 63

/-- `NewPaymentService()`: a started pool of 10 workers and capacity 100, an
empty notification channel, every statistic stored as 0. -/
def NewPaymentService : PaymentService :=
  { payments := []
    workerPool := pool.Start (pool.NewWorkerPool 10 100)
    webhookChan := []
    webhookClosed := false
    stats :=
      SyncMap.Store (SyncMap.Store (SyncMap.Store (SyncMap.Store (SyncMap.Store []
        "total" 0) "pending" 0) "processing" 0) "completed" 0) "failed" 0
    amounts := SyncMap.Store [] "total_amount" 0 }

/-- `incrementStat(key)`. -/
def incrementStat (s : PaymentService) (key : String) : PaymentService :=
  let r := SyncMap.LoadOrStore s.stats key 0
  let current := r.2.1
  { s with stats := SyncMap.Store r.1 key (wrapInt64 (current + 1)) }

/-- `decrementStat(key)`: no store when the counter is not positive. -/
def decrementStat (s : PaymentService) (key : String) : PaymentService :=
  let r := SyncMap.LoadOrStore s.stats key 0
  let current := r.2.1
  if current > 0 then { s with stats := SyncMap.Store r.1 key (current - 1) }
  else { s with stats := r.1 }

/-- `getStat(key)`. -/
def getStat (s : PaymentService) (key : String) : Int :=
  match SyncMap.Load s.stats key with
  | none => 0
  | some value => value

/-- `addAmount(amount)`: the value stored back is `current`; `amount` is not used. -/
def addAmount (s : PaymentService) (_amount : Int) : PaymentService :=
  let r := SyncMap.LoadOrStore s.amounts "total_amount" 0
  let current := r.2.1
  { s with amounts := SyncMap.Store r.1 "total_amount" current }

/-- `subtractAmount(amount)`. -/
def subtractAmount (s : PaymentService) (amount : Int) : PaymentService :=
  let r := SyncMap.LoadOrStore s.amounts "total_amount" 0
  let current := r.2.1
  { s with amounts := SyncMap.Store r.1 "total_amount" (current - amount) }

/-- `getAmount()`. -/
def getAmount (s : PaymentService) : Int :=
  match SyncMap.Load s.amounts "total_amount" with
  | none => 0
  | some value => value

/-- `sendWebhook(payment)`: a `select` of the send on `webhookChan` with a
`default`. The send proceeds when the channel is closed (by panicking) or its
buffer has room; a send handed to the waiting dispatcher is the append followed
by the dispatcher's receive. -/
def sendWebhook (s : PaymentService) (payment : Payment) (now : Nat) :
    PaymentService × Outcome Unit :=
  let webhook : WebhookPayload :=
    { PaymentID := payment.ID
      Status := payment.Status
      Amount := payment.Amount
      TimeStamp := now }
  if s.webhookClosed then (s, Outcome.panic pool.panicSendOnClosed)
  else if s.webhookChan.length < webhookCap then
    ({ s with webhookChan := s.webhookChan ++ [webhook] }, Outcome.ret ())
  else (s, Outcome.ret ())

/-- `CreatePayment(req)`. The result is the pair `(*CreatePaymentResponse, error)`. -/
def CreatePayment (s : PaymentService) (req : CreatePaymentRequest) (id : String) (now : Nat)
    (pick : Nat) :
    PaymentService × Outcome (Option CreatePaymentResponse × Option String) :=
  let payment := NewPayment req id now
  let s1 := { s with payments := SyncMap.Store s.payments payment.ID payment }
  let s2 := addAmount (incrementStat (incrementStat s1 "total") "pending") payment.Amount
  let task : pool.Task := { ID := payment.ID }
  let r := pool.SubmitAsync s2.workerPool task pick
  let s3 := { s2 with workerPool := r.1 }
  match r.2 with
  | Outcome.ret (some err) =>
    (s3, Outcome.ret (none, some ("failed to queue payment for processing: " ++ err)))
  | Outcome.ret none =>
    (s3, Outcome.ret
      (some { PaymentID := payment.ID
              Status := StatusPending
              Message := "Payment queue for processing" }, none))
  | Outcome.panic msg => (s3, Outcome.panic msg)
  | Outcome.blocks => (s3, Outcome.blocks)

/-- The part of `processPayment` before `time.Sleep`, for the record `payment`
loaded from the store: the status becomes Processing. Returns the record too,
as the goroutine keeps the pointer. -/
def processPaymentBegin (s : PaymentService) (paymentID : String) (payment : Payment)
    (t1 : Nat) : PaymentService × Payment :=
  let payment1 := { payment with Status := StatusProcessing, UpdatedAt := t1 }
  let s1 := { s with payments := SyncMap.Store s.payments paymentID payment1 }
  (incrementStat (decrementStat s1 "pending") "processing", payment1)

/-- The part of `processPayment` after `time.Sleep`: `success` is the draw
`rand.Float32() < 0.9`, `t2` the time read into `now`, `t3` the time of the last
`UpdatedAt`, `t4` the time read by `sendWebhook`. -/
def processPaymentFinish (s : PaymentService) (paymentID : String) (payment : Payment)
    (success : Bool) (t2 t3 t4 : Nat) : PaymentService × Outcome (Option String) :=
  let r : PaymentService × Payment :=
    if success then
      (incrementStat (decrementStat s "processing") "completed",
        { payment with Status := StatusCompleted, ProcessedAt := some t2 })
    else
      (subtractAmount (incrementStat (decrementStat s "processing") "failed") payment.Amount,
        { payment with Status := StatusFailed })
  let payment3 := { r.2 with UpdatedAt := t3 }
  let s3 := { r.1 with payments := SyncMap.Store r.1.payments paymentID payment3 }
  let w := sendWebhook s3 payment3 t4
  match w.2 with
  | Outcome.ret _ => (w.1, Outcome.ret none)
  | Outcome.panic msg => (w.1, Outcome.panic msg)
  | Outcome.blocks => (w.1, Outcome.blocks)

/-- `processPayment(paymentID)`. -/
def processPayment (s : PaymentService) (paymentID : String) (t1 : Nat) (success : Bool)
    (t2 t3 t4 : Nat) : PaymentService × Outcome (Option String) :=
  match SyncMap.Load s.payments paymentID with
  | none => (s, Outcome.ret (some ("payment not found: " ++ paymentID)))
  | some payment =>
    let b := processPaymentBegin s paymentID payment t1
    processPaymentFinish b.1 paymentID b.2 success t2 t3 t4

/-- `GetPayment(paymentID)`: the pair `(*model.Payment, error)`. -/
def GetPayment (s : PaymentService) (paymentID : String) : Option Payment × Option String :=
  match SyncMap.Load s.payments paymentID with
  | none => (none, some "payment not found")
  | some payment => (some payment, none)

/-- `GetStats()`, with the value of `runtime.NumGoroutine()`. -/
def GetStats (s : PaymentService) (goroutines : Int) : PaymentStats :=
  { TotalPayment := getStat s "total"
    PendingPayments := getStat s "pending"
    ProcessingPayments := getStat s "processing"
    CompletedPayments := getStat s "completed"
    FailedPayments := getStat s "failed"
    TotalAmount := getAmount s
    ActiveGoroutines := goroutines }

/-- The sum of `Amount` over the stored payments in status Completed. -/
def completedAmount (s : PaymentService) : Int :=
  ((s.payments.filter (fun e => e.2.Status = StatusCompleted)).map (fun e => e.2.Amount)).sum

/-- The number of stored payments in the given status. -/
def countStatus (s : PaymentService) (st : PaymentStatus) : Int :=
  ((s.payments.filter (fun e => e.2.Status = st)).length : Int)

/-- The service together with its worker goroutines: `inFlight` lists the
payments whose `processPayment` is in its `time.Sleep`, between the store of
Processing and the store of the final status. -/
structure System where
  svc : PaymentService
  inFlight : List String
deriving DecidableEq, Repr

/-- What happens next in the system: a `CreatePayment` call, a worker evaluating
the `select` of its loop, a worker running `processPayment` for the task it
holds up to the `time.Sleep`, and a worker running it from there to its return. -/
inductive Action where
  | create (req : CreatePaymentRequest) (id : String) (now pick : Nat)
  | select (pick : Nat)
  | begin (id : String) (t1 : Nat)
  | finish (id : String) (success : Bool) (t2 t3 t4 : Nat)
deriving DecidableEq, Repr

/-- The service after `NewPaymentService()`. -/
def System.init : System := { svc := NewPaymentService, inFlight := [] }

/-- One action, `none` when it cannot happen: `uuid.New()` does not draw an
identifier already stored, a worker begins `processPayment` only for a task it
holds and has not begun, and ends only one it has begun. A task whose payment
is absent ends with the not-found error. -/
def System.step (σ : System) : Action → Option System
  | Action.create req id now pick =>
    match SyncMap.Load σ.svc.payments id with
    | some _ => none
    | none => some { σ with svc := (CreatePayment σ.svc req id now pick).1 }
  | Action.select pick =>
    match pool.workerSelect σ.svc.workerPool pick with
    | none => none
    | some wp => some { σ with svc := { σ.svc with workerPool := wp } }
  | Action.begin id t1 =>
    if ({ ID := id } : pool.Task) ∈ σ.svc.workerPool.running ∧ id ∉ σ.inFlight then
      match SyncMap.Load σ.svc.payments id with
      | none =>
        match pool.workerFinish σ.svc.workerPool { ID := id } with
        | none => none
        | some wp => some { σ with svc := { σ.svc with workerPool := wp } }
      | some payment =>
        some { svc := (processPaymentBegin σ.svc id payment t1).1, inFlight := id :: σ.inFlight }
    else none
  | Action.finish id success t2 t3 t4 =>
    if id ∈ σ.inFlight then
      match SyncMap.Load σ.svc.payments id with
      | none => none
      | some payment =>
        let r := processPaymentFinish σ.svc id payment success t2 t3 t4
        match pool.workerFinish r.1.workerPool { ID := id } with
        | none => none
        | some wp =>
          some { svc := { r.1 with workerPool := wp }, inFlight := σ.inFlight.erase id }
    else none

/-- A run of actions, `none` when one of them cannot happen. -/
def System.run (σ : System) : List Action → Option System
  | [] => some σ
  | a :: rest =>
    match σ.step a with
    | none => none
    | some σ1 => System.run σ1 rest

/-- The record of one payment before and after one action: a new record is
Pending, a stored record stays stored, and its status stays as it is, goes
from Pending to Processing, or goes from Processing to Completed or Failed. -/
def stepOk : Option Payment → Option Payment → Prop
  | none, none => True
  | none, some p1 => p1.Status = StatusPending
  | some _, none => False
  | some p, some p1 =>
    p1.Status = p.Status ∨
    (p.Status = StatusPending ∧ p1.Status = StatusProcessing) ∨
    (p.Status = StatusProcessing ∧ (p1.Status = StatusCompleted ∨ p1.Status = StatusFailed))

/-- The status `b` is `a` or comes after `a` in the order Pending, Processing,
then Completed or Failed. -/
def reaches (a b : PaymentStatus) : Prop :=
  a = b ∨ a = StatusPending ∨ (a = StatusProcessing ∧ (b = StatusCompleted ∨ b = StatusFailed))

/-- The record of one payment at two points of a run, the second later. -/
def laterOk : Option Payment → Option Payment → Prop
  | none, _ => True
  | some _, none => False
  | some p, some p1 => reaches p.Status p1.Status

/-- What holds of every state of a run: no task is twice in the pool; the
payment of a task that is queued, or held by a worker that has not begun it, is
stored in Pending; the payment of a task in flight is held by a worker and
stored in Processing; the pool is running. -/
structure SysInv (σ : System) : Prop where
  nodup : (σ.svc.workerPool.taskQueue ++ σ.svc.workerPool.running).Nodup
  pending : ∀ t ∈ σ.svc.workerPool.taskQueue ++ σ.svc.workerPool.running, t.ID ∉ σ.inFlight →
    ∃ p, SyncMap.Load σ.svc.payments t.ID = some p ∧ p.Status = StatusPending
  flight : ∀ id ∈ σ.inFlight, ({ ID := id } : pool.Task) ∈ σ.svc.workerPool.running ∧
    ∃ p, SyncMap.Load σ.svc.payments id = some p ∧ p.Status = StatusProcessing
  flightNodup : σ.inFlight.Nodup
  poolInv : pool.Inv σ.svc.workerPool

/-- The sum of `Amount` over the stored payments in status Failed. -/
def failedAmount (s : PaymentService) : Int :=
  ((s.payments.filter (fun e => e.2.Status = StatusFailed)).map (fun e => e.2.Amount)).sum

/-- The statistics as a projection of the store: each counter is the number of
stored payments it stands for, and the amount is what the code keeps in it,
minus the sum over the Failed payments. -/
structure StatsInv (s : PaymentService) : Prop where
  total : getStat s "total" = (s.payments.length : Int)
  pending : getStat s "pending" = countStatus s StatusPending
  processing : getStat s "processing" = countStatus s StatusProcessing
  completed : getStat s "completed" = countStatus s StatusCompleted
  failed : getStat s "failed" = countStatus s StatusFailed
  amount : getAmount s = - failedAmount s

end service

/-! ### `internal/handler` -/

namespace handler

open model service

/-- The JSON answer of a handler: the status code and, for an error, the
"error" and "message" fields. -/
inductive Response where
  | fail (status : Nat) (error message : String)
  | created (status : Nat) (response : CreatePaymentResponse)
deriving DecidableEq, Repr

/-- `PaymentHandler.CreatePayment`: `parseErr` and `req` are what
`c.BodyParser(&req)` returns and fills in; `len(req.Currency)` counts bytes. -/
def CreatePayment (s : PaymentService) (parseErr : Option String) (req : CreatePaymentRequest)
    (id : String) (now pick : Nat) : PaymentService × Outcome Response :=
  match parseErr with
  | some err => (s, Outcome.ret (Response.fail 400 "Invalid request body" err))
  | none =>
    if req.UserID = "" then
      (s, Outcome.ret (Response.fail 400 "Validation failed" "user_id is required"))
    else if req.Amount ≤ 0 then
      (s, Outcome.ret (Response.fail 400 "Validation failed" "amount must be greater than 0"))
    else if req.Currency.utf8ByteSize ≠ 3 then
      (s, Outcome.ret (Response.fail 400 "Validation failed"
        "currency must be 3-letter code (e.g., USD, THB)"))
    else
      let r := service.CreatePayment s req id now pick
      match r.2 with
      | Outcome.ret (_, some err) =>
        (r.1, Outcome.ret (Response.fail 400 "Failed to create payment" err))
      | Outcome.ret (some response, none) => (r.1, Outcome.ret (Response.created 201 response))
      | Outcome.ret (none, none) => (r.1, Outcome.panic "nil pointer dereference")
      | Outcome.panic msg => (r.1, Outcome.panic msg)
      | Outcome.blocks => (r.1, Outcome.blocks)

end handler

/-! ### `golang.org/x/time/rate` and `internal/middleware` -/

namespace rate

/-- The number of nanoseconds in a second. -/
def nano : Nat := 1000000000

/-- Modelled from the spec: the token bucket `rate.Limiter` of the dependency
`golang.org/x/time/rate`, which is not under src/. The spec gives a bucket a
capacity (`burst`), a refill rate in tokens per second (`limit`), its current
tokens and the time of its last refill; a check refills the bucket for the
time elapsed, up to the capacity, and takes one token when one is there.
With a clock of `unit` ticks a second, `tokens` counts in `1 / unit` of a
token, so that the refill for `d` ticks is `d * limit`. -/
structure Limiter where
  limit : Nat
  burst : Nat
  tokens : Nat
  last : Nat
deriving DecidableEq, Repr

/-- Modelled from the spec: a new bucket, full, for a clock of `unit` ticks a
second. -/
def NewLimiterAt (unit r b : Nat) : Limiter :=
  { limit := r, burst := b, tokens := b * unit, last := 0 }

/-- Modelled from the spec: the tokens of the bucket at time `now`, after the
refill for the time elapsed since `last`. -/
def Limiter.advanceAt (unit : Nat) (lim : Limiter) (now : Nat) : Nat :=
  min (lim.burst * unit) (lim.tokens + (now - lim.last) * lim.limit)

/-- Modelled from the spec: the check at time `now`: it takes one token when the
refilled bucket holds one, and otherwise leaves the bucket as it is. -/
def Limiter.AllowAt (unit : Nat) (lim : Limiter) (now : Nat) : Limiter × Bool :=
  if unit ≤ lim.advanceAt unit now then
    ({ lim with tokens := lim.advanceAt unit now - unit, last := now }, true)
  else (lim, false)

/-- The results of successive checks of one bucket at the given times. -/
def Limiter.allowAllAt (unit : Nat) (lim : Limiter) : List Nat → List Bool
  | [] => []
  | t :: ts => (lim.AllowAt unit t).2 :: Limiter.allowAllAt unit (lim.AllowAt unit t).1 ts

/-- Modelled from the spec: `rate.NewLimiter(r, b)`; times are in nanoseconds. -/
def NewLimiter (r b : Nat) : Limiter := NewLimiterAt nano r b

/-- Modelled from the spec: `Allow()`, called at time `now` in nanoseconds. -/
def Limiter.Allow (lim : Limiter) (now : Nat) : Limiter × Bool := lim.AllowAt nano now

/-- The results of successive `Allow()` calls on one bucket at the given times. -/
def Limiter.allowAll (lim : Limiter) (ts : List Nat) : List Bool := lim.allowAllAt nano ts

/-- A bucket of capacity `N` that holds `j` tokens and was last refilled at
`now`, or is full. -/
def Level (unit : Nat) (lim : Limiter) (N now j : Nat) : Prop :=
  lim.burst = N ∧ lim.tokens = j * unit ∧ j ≤ N ∧ (j = N ∨ lim.last = now)

end rate

namespace middleware

/-- A Go string as the code holds it. The string of `c.IP()` owns its bytes. The
string of `c.Get("X-User-ID")` does not: the application is built by `fiber.New`
without `Immutable` (main.go), so it is a view of `len` bytes at the address
`ref` of the request buffer of the server, and reads whatever the buffer holds
at the time it is read. -/
inductive GoString where
  | owned (s : String)
  | view (ref len : Nat)
deriving DecidableEq, Repr

/-- The bytes in the request buffers of the server, by address. The server
writes them when it parses a request: like the clock, the memory at the time of
a call is an argument of the embedding. -/
abbrev Memory := Nat → List Char

/-- The bytes a Go string reads in the memory `mem`. -/
def GoString.read (mem : Memory) : GoString → String
  | GoString.owned s => s
  | GoString.view ref len => String.mk ((mem ref).take len)

/-- A `RateLimiter`. The `limiters` map holds, under each key, the pointer
`*rate.Limiter`: an address of `heap`. `next` is the first address not yet
allocated. -/
structure RateLimiter where
  limiters : List (GoString × Nat)
  heap : Nat → rate.Limiter
  next : Nat
  requestPerSecond : Nat
  burst : Nat

/-- `NewRateLimiter(rps, burst)`: an empty map, nothing allocated. -/
def NewRateLimiter (rps burst : Nat) : RateLimiter :=
  { limiters := []
    heap := fun _ => { limit := 0, burst := 0, tokens := 0, last := 0 }
    next := 0
    requestPerSecond := rps
    burst := burst }

/-- `limiters.Load(key)`: the pointer stored under a key that reads the same
bytes as `key` at the time of the call; keys are compared by the bytes they
read then. A key whose bytes differ from those looked up is never a match. -/
def loadKey (mem : Memory) : List (GoString × Nat) → GoString → Option Nat
  | [], _ => none
  | (k, v) :: rest, key => if k.read mem = key.read mem then some v else loadKey mem rest key

/-- `limiters.LoadOrStore(key, value)`: the pointer already stored when there is
one, else `value`, which is then stored under `key`. -/
def loadOrStoreKey (mem : Memory) (m : List (GoString × Nat)) (key : GoString) (value : Nat) :
    List (GoString × Nat) × Nat × Bool :=
  match loadKey mem m key with
  | some actual => (m, actual, true)
  | none => (m ++ [(key, value)], value, false)

/-- `getLimiter(userID)`: the stored pointer, or that of a limiter it allocates
with `rate.NewLimiter` and stores with `LoadOrStore`. -/
def getLimiter (rl : RateLimiter) (mem : Memory) (userID : GoString) : RateLimiter × Nat :=
  match loadKey mem rl.limiters userID with
  | some limiter => (rl, limiter)
  | none =>
    let newLimiter := rl.next
    let rl1 :=
      { rl with
        heap := fun a =>
          if a = rl.next then rate.NewLimiter rl.requestPerSecond rl.burst else rl.heap a
        next := rl.next + 1 }
    let r := loadOrStoreKey mem rl1.limiters userID newLimiter
    ({ rl1 with limiters := r.1 }, r.2.1)

/-- What the handler of `Middleware` does with a request. -/
inductive Verdict where
  | next
  | tooManyRequests (userID : String)
deriving DecidableEq, Repr

/-- The handler returned by `Middleware()`: `header` is the string `c.Get("X-User-ID")`
returns (the owned empty string when the request has no such header), `ip` is
`c.IP()`, `mem` the memory and `now` the time at the call. `limiter.Allow()`
updates the limiter the pointer leads to; the map is not written again. -/
def Middleware (rl : RateLimiter) (mem : Memory) (header : GoString) (ip : String)
    (now : Nat) : RateLimiter × Verdict :=
  let userID := if header.read mem = "" then GoString.owned ip else header
  let g := getLimiter rl mem userID
  let a := (g.1.heap g.2).Allow now
  let rl2 := { g.1 with heap := fun x => if x = g.2 then a.1 else g.1.heap x }
  (rl2, if !a.2 then Verdict.tooManyRequests (userID.read mem) else Verdict.next)

/-- A request as the handler sees it: the memory at the call, the string of
`c.Get("X-User-ID")`, the string of `c.IP()` and the time. -/
structure Request where
  mem : Memory
  header : GoString
  ip : String
  now : Nat

/-- The handler run on a sequence of requests, with its verdicts. -/
def serve (rl : RateLimiter) : List Request → RateLimiter × List Verdict
  | [] => (rl, [])
  | q :: qs =>
    let r := Middleware rl q.mem q.header q.ip q.now
    let t := serve r.1 qs
    (t.1, r.2 :: t.2)

/-- A request of the user "alice" on a first connection, whose buffer at address
1 holds the bytes of her header. -/
def aliceFirst (now : Nat) : Request :=
  { mem := fun a => if a = 1 then "alice".data else []
    header := GoString.view 1 5
    ip := "10.0.0.1"
    now := now }

/-- A request of the user "alice" on a second connection, whose buffer is at
address 2, after the first connection has carried a request with the header
"bobby", which the server parsed into the buffer at address 1. -/
def aliceSecond (now : Nat) : Request :=
  { mem := fun a => if a = 1 then "bobby".data else if a = 2 then "alice".data else []
    header := GoString.view 2 5
    ip := "10.0.0.2"
    now := now }

/-- A request without the header `X-User-ID`: the key is the string of `c.IP()`. -/
def byIP (mem : Memory) (ip : String) (now : Nat) : Request :=
  { mem := mem, header := GoString.owned "", ip := ip, now := now }

/-- The times of the requests of the address `ip` in a sequence of requests
without the header. -/
def ipTimes (cs : List (Memory × String × Nat)) (ip : String) : List Nat :=
  (cs.filter (fun c => c.2.1 = ip)).map (fun c => c.2.2)

/-- The requests without the header that a sequence of addresses and times
stands for. -/
def ipRequests (cs : List (Memory × String × Nat)) : List Request :=
  cs.map (fun c => byIP c.1 c.2.1 c.2.2)

/-- Whether each request of the address `ip`, in a sequence of requests without
the header served from `rl`, is let through. -/
def ipVerdicts (rl : RateLimiter) (cs : List (Memory × String × Nat)) (ip : String) :
    List Bool :=
  ((cs.zip (serve rl (ipRequests cs)).2).filter (fun x => x.1.2.1 = ip)).map
    (fun x => decide (x.2 = Verdict.next))

/-- The bucket the next check of the owned key `key` uses: the one its stored
pointer leads to, or a new one. -/
def keyBucket (rl : RateLimiter) (key : String) : rate.Limiter :=
  match loadKey (fun _ => []) rl.limiters (GoString.owned key) with
  | some limiter => rl.heap limiter
  | none => rate.NewLimiter rl.requestPerSecond rl.burst

/-- The state of a limiter all of whose keys own their bytes: no key is stored
twice, and the stored pointers are allocated and lead to different limiters. -/
structure Owned (rl : RateLimiter) : Prop where
  keys : ∀ e ∈ rl.limiters, ∃ s, e.1 = GoString.owned s
  keysNodup : (rl.limiters.map (fun e => e.1)).Nodup
  ptrsNodup : (rl.limiters.map (fun e => e.2)).Nodup
  allocated : ∀ e ∈ rl.limiters, e.2 < rl.next

end middleware

/-! ## Theorems -/

theorem selectCase_nil {α : Type} (pick : Nat) : selectCase ([] : List α) pick = none := by
  simp [selectCase]

theorem selectCase_singleton {α : Type} (a : α) (pick : Nat) :
    selectCase [a] pick = some a := by
  simp [selectCase, Nat.mod_one]

namespace pool

theorem inv_start (W Q : Nat) : Inv (Start (NewWorkerPool W Q)) := by
  constructor <;> simp [Start, NewWorkerPool]

theorem submitAsync_running (wp : WorkerPool) (h : Inv wp) (task : Task) (pick : Nat) :
    SubmitAsync wp task pick =
      if 0 < wp.parked then
        ({ wp with parked := wp.parked - 1, running := wp.running ++ [task] }, Outcome.ret none)
      else if wp.taskQueue.length < wp.queueCap then
        ({ wp with taskQueue := wp.taskQueue ++ [task] }, Outcome.ret none)
      else (wp, Outcome.ret (some errQueueFull)) := by
  have h1 := h.notClosed
  have h2 := h.notDone
  unfold SubmitAsync submitReady sendReady doSend
  by_cases hp : 0 < wp.parked
  · simp [h1, h2, hp, selectCase_singleton]
  · by_cases hl : wp.taskQueue.length < wp.queueCap
    · simp [h1, h2, hp, hl, selectCase_singleton]
    · simp [h1, h2, hp, hl, selectCase_nil]

theorem inv_submitAsync (wp : WorkerPool) (h : Inv wp) (task : Task) (pick : Nat) :
    Inv (SubmitAsync wp task pick).1 := by
  rw [submitAsync_running wp h]
  by_cases hp : 0 < wp.parked
  · have he := h.parked_empty hp
    have hw := h.workers
    simp only [hp, if_true]
    constructor
    · exact h.notClosed
    · exact h.notDone
    · exact h.len_le
    · intro _; exact he
    · simp only [List.length_append, List.length_singleton]; omega
  · by_cases hl : wp.taskQueue.length < wp.queueCap
    · simp only [hp, hl, if_true, if_false]
      constructor
      · exact h.notClosed
      · exact h.notDone
      · simp only [List.length_append, List.length_singleton]; omega
      · intro hp2; exact absurd hp2 hp
      · exact h.workers
    · simp only [hp, hl, if_false]; exact h

theorem workerSelect_running (wp : WorkerPool) (h : Inv wp) (pick : Nat) :
    workerSelect wp pick =
      if wp.atSelect = 0 then none
      else match wp.taskQueue with
        | task :: rest =>
          some { wp with atSelect := wp.atSelect - 1, taskQueue := rest,
                         running := wp.running ++ [task] }
        | [] => some { wp with atSelect := wp.atSelect - 1, parked := wp.parked + 1 } := by
  have h1 := h.notClosed
  have h2 := h.notDone
  unfold workerSelect workerReady
  by_cases ha : wp.atSelect = 0
  · simp [ha]
  · cases hq : wp.taskQueue with
    | nil => simp [ha, h1, h2, selectCase_nil]
    | cons t rest => simp [ha, h1, h2, selectCase_singleton]

theorem inv_workerSelect (wp wp1 : WorkerPool) (h : Inv wp) (pick : Nat)
    (hs : workerSelect wp pick = some wp1) : Inv wp1 := by
  rw [workerSelect_running wp h] at hs
  by_cases ha : wp.atSelect = 0
  · simp [ha] at hs
  · have hw := h.workers
    have hl := h.len_le
    cases hq : wp.taskQueue with
    | nil =>
      simp only [ha, hq, if_false, Option.some.injEq] at hs
      subst hs
      constructor
      · exact h.notClosed
      · exact h.notDone
      · exact Nat.zero_le _
      · intro _; rfl
      · show wp.atSelect - 1 + (wp.parked + 1) + wp.running.length = wp.workerCount
        omega
    | cons t rest =>
      simp only [ha, hq, if_false, Option.some.injEq] at hs
      subst hs
      have hp0 : wp.parked = 0 := by
        by_contra hne
        have := h.parked_empty (Nat.pos_of_ne_zero hne)
        rw [hq] at this
        exact List.cons_ne_nil _ _ this
      constructor
      · exact h.notClosed
      · exact h.notDone
      · show rest.length ≤ wp.queueCap
        rw [hq] at hl
        simp only [List.length_cons] at hl
        omega
      · intro hp
        change 0 < wp.parked at hp
        omega
      · show wp.atSelect - 1 + wp.parked + (wp.running ++ [t]).length = wp.workerCount
        simp only [List.length_append, List.length_singleton]
        omega

theorem inv_workerFinish (wp wp1 : WorkerPool) (h : Inv wp) (task : Task)
    (hs : workerFinish wp task = some wp1) : Inv wp1 := by
  unfold workerFinish at hs
  by_cases hm : task ∈ wp.running
  · simp only [hm, if_true, Option.some.injEq] at hs
    subst hs
    have hw := h.workers
    have hpos : 0 < wp.running.length := List.length_pos_of_mem hm
    constructor
    · exact h.notClosed
    · exact h.notDone
    · exact h.len_le
    · exact h.parked_empty
    · show wp.atSelect + 1 + wp.parked + (wp.running.erase task).length = wp.workerCount
      rw [List.length_erase_of_mem hm]
      omega
  · simp [hm] at hs

theorem inv_step (wp : WorkerPool) (h : Inv wp) (e : Event) : Inv (step wp e).1 := by
  cases e with
  | submitAsync task pick => exact inv_submitAsync wp h task pick
  | select pick =>
    show Inv ((workerSelect wp pick).getD wp)
    cases hs : workerSelect wp pick with
    | none => exact h
    | some wp1 => exact inv_workerSelect wp wp1 h pick hs
  | finish task =>
    show Inv ((workerFinish wp task).getD wp)
    cases hs : workerFinish wp task with
    | none => exact h
    | some wp1 => exact inv_workerFinish wp wp1 h task hs

theorem inv_run (es : List Event) : ∀ wp : WorkerPool, Inv wp → Inv (run wp es).1 := by
  induction es with
  | nil => intro wp h; exact h
  | cons e es ih => intro wp h; exact ih _ (inv_step wp h e)

theorem step_queueCap (wp : WorkerPool) (h : Inv wp) (e : Event) :
    (step wp e).1.queueCap = wp.queueCap ∧ (step wp e).1.workerCount = wp.workerCount := by
  cases e with
  | submitAsync task pick =>
    have hs := submitAsync_running wp h task pick
    show (SubmitAsync wp task pick).1.queueCap = wp.queueCap ∧
      (SubmitAsync wp task pick).1.workerCount = wp.workerCount
    rw [hs]
    by_cases hp : 0 < wp.parked
    · simp [hp]
    · by_cases hl : wp.taskQueue.length < wp.queueCap
      · simp [hp, hl]
      · simp [hp, hl]
  | select pick =>
    show ((workerSelect wp pick).getD wp).queueCap = wp.queueCap ∧
      ((workerSelect wp pick).getD wp).workerCount = wp.workerCount
    rw [workerSelect_running wp h]
    by_cases ha : wp.atSelect = 0
    · simp [ha]
    · cases hq : wp.taskQueue <;> simp [ha]
  | finish task =>
    show ((workerFinish wp task).getD wp).queueCap = wp.queueCap ∧
      ((workerFinish wp task).getD wp).workerCount = wp.workerCount
    unfold workerFinish
    by_cases hm : task ∈ wp.running <;> simp [hm]

theorem run_queueCap (es : List Event) : ∀ wp : WorkerPool, Inv wp →
    (run wp es).1.queueCap = wp.queueCap ∧ (run wp es).1.workerCount = wp.workerCount := by
  induction es with
  | nil => intro wp _; exact ⟨rfl, rfl⟩
  | cons e es ih =>
    intro wp h
    have h1 := ih _ (inv_step wp h e)
    have h2 := step_queueCap wp h e
    exact ⟨h1.1.trans h2.1, h1.2.trans h2.2⟩

/-- Without the end of a task, each accepted submission adds one task to the
buffer or to the running tasks, and nothing else changes their number. -/
theorem step_count (wp : WorkerPool) (h : Inv wp) (e : Event) (hf : e.isFinish = false) :
    (step wp e).1.taskQueue.length + (step wp e).1.running.length =
      wp.taskQueue.length + wp.running.length + (step wp e).2 := by
  cases e with
  | submitAsync task pick =>
    have hs := submitAsync_running wp h task pick
    show (SubmitAsync wp task pick).1.taskQueue.length + (SubmitAsync wp task pick).1.running.length =
      wp.taskQueue.length + wp.running.length +
        (if (SubmitAsync wp task pick).2 = Outcome.ret none then 1 else 0)
    rw [hs]
    by_cases hp : 0 < wp.parked
    · simp [hp]; omega
    · by_cases hl : wp.taskQueue.length < wp.queueCap
      · simp [hp, hl]; omega
      · simp [hp, hl]
  | select pick =>
    show ((workerSelect wp pick).getD wp).taskQueue.length +
      ((workerSelect wp pick).getD wp).running.length =
      wp.taskQueue.length + wp.running.length + 0
    rw [workerSelect_running wp h]
    by_cases ha : wp.atSelect = 0
    · simp [ha]
    · cases hq : wp.taskQueue with
      | nil => simp [ha]
      | cons t rest => simp [ha]; omega
  | finish task => simp [Event.isFinish] at hf

theorem run_count (es : List Event) : ∀ wp : WorkerPool, Inv wp →
    (∀ e ∈ es, e.isFinish = false) →
    (run wp es).1.taskQueue.length + (run wp es).1.running.length =
      wp.taskQueue.length + wp.running.length + (run wp es).2 := by
  induction es with
  | nil => intro wp _ _; rfl
  | cons e es ih =>
    intro wp h hf
    have h1 := ih _ (inv_step wp h e) (fun x hx => hf x (List.mem_cons_of_mem _ hx))
    have h2 := step_count wp h e (hf e (List.mem_cons_self _ _))
    show (run (step wp e).1 es).1.taskQueue.length + (run (step wp e).1 es).1.running.length =
      wp.taskQueue.length + wp.running.length + ((step wp e).2 + (run (step wp e).1 es).2)
    omega

/-- After `Shutdown` has returned, the `select` of `Submit` and of `SubmitAsync`
has two cases that can proceed, `ctx.Done()` and the send on the closed channel:
the draw decides between the pool-closed error and the panic of the send. -/
theorem submit_after_shutdown (wp : WorkerPool) (drained : Nat) (task : Task) (pick : Nat) :
    SubmitAsync (Shutdown wp drained) task pick =
      (Shutdown wp drained,
        if pick % 2 = 0 then Outcome.ret (some errShuttingDown)
        else Outcome.panic panicSendOnClosed) ∧
    Submit (Shutdown wp drained) task pick =
      (Shutdown wp drained,
        if pick % 2 = 0 then Outcome.ret (some errShuttingDown)
        else Outcome.panic panicSendOnClosed) := by
  have hr : submitReady (Shutdown wp drained) = [SubmitCase.done, SubmitCase.send] := by
    simp [submitReady, sendReady, Shutdown]
  have hc : (Shutdown wp drained).queueClosed = true := rfl
  unfold SubmitAsync Submit
  rw [hr]
  rcases Nat.mod_two_eq_zero_or_one pick with h | h
  · simp [selectCase, h]
  · simp [selectCase, h, doSend, hc]

/-- C7, evaluated: for the pool of `NewWorkerPool(1, 1)`, started and shut down,
`SubmitAsync` and `Submit` of a task panic with "send on closed channel" when the
`select` draws the send case; they return the pool-closed error only when it
draws `ctx.Done()`. -/
theorem submit_after_shutdown_panics :
    (SubmitAsync (Shutdown (Start (NewWorkerPool 1 1)) 0) { ID := "t1" } 1).2 =
        Outcome.panic "send on closed channel" ∧
    (Submit (Shutdown (Start (NewWorkerPool 1 1)) 0) { ID := "t1" } 1).2 =
        Outcome.panic "send on closed channel" ∧
    (SubmitAsync (Shutdown (Start (NewWorkerPool 1 1)) 0) { ID := "t1" } 0).2 =
        Outcome.ret (some "worker pool is shutting down") := by
  decide

/-- C8 as stated fails for an unbuffered queue: with `NewWorkerPool(1, 0)`, once
the worker is parked in its `select`, `SubmitAsync` accepts a task although the
queue does not hold fewer than `Q = 0` tasks. -/
theorem submitAsync_unbuffered_accepts :
    (SubmitAsync (started 1 0 [Event.select 0]) { ID := "t1" } 0).2 = Outcome.ret none ∧
    ¬ (QueueLength (started 1 0 [Event.select 0]) < (started 1 0 [Event.select 0]).queueCap) := by
  decide

/-- C8, amended: in every state of a started pool of `W` workers and capacity `Q`
that has not been shut down, `QueueLength` is at most `Q`; `SubmitAsync` returns
at once, either nil or the queue-full error; it accepts exactly when the queue
holds fewer than `Q` tasks or a worker is parked in its `select`, which for
`Q ≥ 1` is exactly when the queue holds fewer than `Q` tasks; when it does not
accept, it returns the queue-full error and leaves the pool unchanged. In a run
from such a state in which no task ends, at most `Q + W` submissions are
accepted, and once `Q + W` are accepted every further submission returns the
queue-full error. -/
theorem submitAsync_bounded (W Q : Nat) (es es2 : List Event) (task : Task) (pick : Nat) :
    QueueLength (started W Q es) ≤ Q ∧
    ((SubmitAsync (started W Q es) task pick).2 = Outcome.ret none ∨
      (SubmitAsync (started W Q es) task pick).2 = Outcome.ret (some errQueueFull)) ∧
    ((SubmitAsync (started W Q es) task pick).2 = Outcome.ret none ↔
      (QueueLength (started W Q es) < Q ∨ 0 < (started W Q es).parked)) ∧
    (1 ≤ Q → ((SubmitAsync (started W Q es) task pick).2 = Outcome.ret none ↔
      QueueLength (started W Q es) < Q)) ∧
    ((SubmitAsync (started W Q es) task pick).2 ≠ Outcome.ret none →
      SubmitAsync (started W Q es) task pick =
        (started W Q es, Outcome.ret (some errQueueFull))) ∧
    QueueLength (SubmitAsync (started W Q es) task pick).1 ≤ Q ∧
    ((∀ e ∈ es2, e.isFinish = false) →
      accepted (started W Q es) es2 ≤ Q + W ∧
      (accepted (started W Q es) es2 = Q + W →
        SubmitAsync (run (started W Q es) es2).1 task pick =
          ((run (started W Q es) es2).1, Outcome.ret (some errQueueFull)))) := by
  have h0 := inv_start W Q
  have h : Inv (started W Q es) := inv_run es _ h0
  have hcap : (started W Q es).queueCap = Q ∧ (started W Q es).workerCount = W :=
    run_queueCap es _ h0
  have hlen := h.len_le
  have hpe := h.parked_empty
  have hw := h.workers
  have hs := submitAsync_running (started W Q es) h task pick
  have h2 := inv_submitAsync (started W Q es) h task pick
  have hcap2 := (step_queueCap (started W Q es) h (Event.submitAsync task pick)).1
  change (SubmitAsync (started W Q es) task pick).1.queueCap = _ at hcap2
  have hlen2 := h2.len_le
  rw [hcap.1] at hlen
  rw [hcap2, hcap.1] at hlen2
  refine ⟨hlen, ?_, ?_, ?_, ?_, hlen2, ?_⟩
  · rw [hs]
    by_cases hp : 0 < (started W Q es).parked
    · simp [hp]
    · by_cases hl : (started W Q es).taskQueue.length < (started W Q es).queueCap
      · simp [hp, hl]
      · simp [hp, hl]
  · rw [hs]
    unfold QueueLength
    by_cases hp : 0 < (started W Q es).parked
    · simp [hp]
    · by_cases hl : (started W Q es).taskQueue.length < (started W Q es).queueCap
      · have hl2 := hl
        rw [hcap.1] at hl2
        simp [hp, hl, hl2]
      · have hl2 := hl
        rw [hcap.1] at hl2
        simp [hp, hl, hl2, errQueueFull]
  · intro hQ
    rw [hs]
    unfold QueueLength
    by_cases hp : 0 < (started W Q es).parked
    · have he := hpe hp
      simp [hp, he]
      omega
    · by_cases hl : (started W Q es).taskQueue.length < (started W Q es).queueCap
      · have hl2 := hl
        rw [hcap.1] at hl2
        simp [hp, hl, hl2]
      · have hl2 := hl
        rw [hcap.1] at hl2
        simp [hp, hl, hl2, errQueueFull]
  · rw [hs]
    by_cases hp : 0 < (started W Q es).parked
    · simp [hp]
    · by_cases hl : (started W Q es).taskQueue.length < (started W Q es).queueCap
      · simp [hp, hl]
      · simp [hp, hl]
  · intro hf
    have hc := run_count es2 _ h hf
    have hi2 : Inv (run (started W Q es) es2).1 := inv_run es2 _ h
    have hcq := run_queueCap es2 _ h
    have hlen3 := hi2.len_le
    have hw3 := hi2.workers
    rw [hcq.1, hcap.1] at hlen3
    rw [hcq.2, hcap.2] at hw3
    change _ = _ + _ + accepted (started W Q es) es2 at hc
    constructor
    · omega
    · intro hacc
      rw [submitAsync_running _ hi2]
      have hp : ¬ 0 < (run (started W Q es) es2).1.parked := by omega
      have hl : ¬ (run (started W Q es) es2).1.taskQueue.length <
          (run (started W Q es) es2).1.queueCap := by
        rw [hcq.1, hcap.1]; omega
      simp [hp, hl]

/-- C8 at a pool of one worker and capacity one: with the worker blocked in the
first task and the second task queued, two submissions are accepted, which is
`Q + W`, and the next one returns the queue-full error. -/
theorem submitAsync_bounded_witness :
    accepted (started 1 1 []) [Event.submitAsync { ID := "t1" } 0, Event.select 0,
        Event.submitAsync { ID := "t2" } 0] = 1 + 1 ∧
    SubmitAsync (run (started 1 1 []) [Event.submitAsync { ID := "t1" } 0, Event.select 0,
        Event.submitAsync { ID := "t2" } 0]).1 { ID := "t3" } 0 =
      ((run (started 1 1 []) [Event.submitAsync { ID := "t1" } 0, Event.select 0,
        Event.submitAsync { ID := "t2" } 0]).1, Outcome.ret (some errQueueFull)) :=
  ⟨by decide,
    ((submitAsync_bounded 1 1 [] [Event.submitAsync { ID := "t1" } 0, Event.select 0,
        Event.submitAsync { ID := "t2" } 0] { ID := "t3" } 0).2.2.2.2.2.2
      (by decide)).2 (by decide)⟩

end pool

namespace SyncMap

theorem Load_Store_self {β : Type} (m : SyncMap β) (k : String) (v : β) :
    Load (Store m k v) k = some v := by
  induction m with
  | nil => simp [Store, Load]
  | cons e rest ih =>
    obtain ⟨k0, v0⟩ := e
    by_cases h : k0 = k
    · simp [Store, Load, h]
    · simp [Store, Load, h, ih]

theorem Load_Store_ne {β : Type} (m : SyncMap β) (k k1 : String) (v : β) (hne : k ≠ k1) :
    Load (Store m k v) k1 = Load m k1 := by
  induction m with
  | nil => simp [Store, Load, hne]
  | cons e rest ih =>
    obtain ⟨k0, v0⟩ := e
    by_cases h : k0 = k
    · subst h
      simp [Store, Load, hne]
    · simp only [Store, h, if_false, Load, ih]

theorem Store_of_Load_none {β : Type} (m : SyncMap β) (k : String) (v : β)
    (h : Load m k = none) : Store m k v = m ++ [(k, v)] := by
  induction m with
  | nil => rfl
  | cons e rest ih =>
    obtain ⟨k0, v0⟩ := e
    by_cases h0 : k0 = k
    · simp [Load, h0] at h
    · simp only [Load, h0, if_false] at h
      simp only [Store, h0, if_false, ih h, List.cons_append]

theorem Store_present {β : Type} (m : SyncMap β) (k : String) (v v1 : β)
    (h : Load m k = some v) :
    ∃ l1 l2, m = l1 ++ (k, v) :: l2 ∧ Store m k v1 = l1 ++ (k, v1) :: l2 := by
  induction m with
  | nil => simp [Load] at h
  | cons e rest ih =>
    obtain ⟨k0, v0⟩ := e
    by_cases h0 : k0 = k
    · subst h0
      simp only [Load, if_true, Option.some.injEq] at h
      subst h
      exact ⟨[], rest, rfl, by simp [Store]⟩
    · simp only [Load, h0, if_false] at h
      obtain ⟨l1, l2, h1, h2⟩ := ih h
      refine ⟨(k0, v0) :: l1, l2, by rw [h1]; rfl, ?_⟩
      simp only [Store, h0, if_false, h2, List.cons_append]

end SyncMap

namespace service

open model

theorem incrementStat_frame (s : PaymentService) (key : String) :
    (incrementStat s key).payments = s.payments ∧
    (incrementStat s key).workerPool = s.workerPool ∧
    (incrementStat s key).webhookChan = s.webhookChan ∧
    (incrementStat s key).webhookClosed = s.webhookClosed ∧
    (incrementStat s key).amounts = s.amounts :=
  ⟨rfl, rfl, rfl, rfl, rfl⟩

theorem decrementStat_frame (s : PaymentService) (key : String) :
    (decrementStat s key).payments = s.payments ∧
    (decrementStat s key).workerPool = s.workerPool ∧
    (decrementStat s key).webhookChan = s.webhookChan ∧
    (decrementStat s key).webhookClosed = s.webhookClosed ∧
    (decrementStat s key).amounts = s.amounts := by
  simp only [decrementStat]
  split <;> exact ⟨rfl, rfl, rfl, rfl, rfl⟩

theorem addAmount_frame (s : PaymentService) (amount : Int) :
    (addAmount s amount).payments = s.payments ∧
    (addAmount s amount).workerPool = s.workerPool ∧
    (addAmount s amount).webhookChan = s.webhookChan ∧
    (addAmount s amount).webhookClosed = s.webhookClosed ∧
    (addAmount s amount).stats = s.stats :=
  ⟨rfl, rfl, rfl, rfl, rfl⟩

theorem subtractAmount_frame (s : PaymentService) (amount : Int) :
    (subtractAmount s amount).payments = s.payments ∧
    (subtractAmount s amount).workerPool = s.workerPool ∧
    (subtractAmount s amount).webhookChan = s.webhookChan ∧
    (subtractAmount s amount).webhookClosed = s.webhookClosed ∧
    (subtractAmount s amount).stats = s.stats :=
  ⟨rfl, rfl, rfl, rfl, rfl⟩

/-- What `CreatePayment` does to the store, the pool and the notification
channel, whatever the request. -/
theorem createPayment_state (s : PaymentService) (req : CreatePaymentRequest) (id : String)
    (now pick : Nat) :
    (CreatePayment s req id now pick).1.payments =
      SyncMap.Store s.payments id (NewPayment req id now) ∧
    (CreatePayment s req id now pick).1.workerPool =
      (pool.SubmitAsync s.workerPool { ID := id } pick).1 ∧
    (CreatePayment s req id now pick).1.webhookChan = s.webhookChan ∧
    (CreatePayment s req id now pick).1.webhookClosed = s.webhookClosed := by
  unfold CreatePayment
  simp only
  split <;> exact ⟨rfl, rfl, rfl, rfl⟩

/-- The result of `CreatePayment`, from the result of `SubmitAsync`. -/
theorem createPayment_result (s : PaymentService) (req : CreatePaymentRequest) (id : String)
    (now pick : Nat) :
    (CreatePayment s req id now pick).2 =
      match (pool.SubmitAsync s.workerPool { ID := id } pick).2 with
      | Outcome.ret (some err) =>
        Outcome.ret (none, some ("failed to queue payment for processing: " ++ err))
      | Outcome.ret none =>
        Outcome.ret (some { PaymentID := id, Status := StatusPending,
                            Message := "Payment queue for processing" }, none)
      | Outcome.panic msg => Outcome.panic msg
      | Outcome.blocks => Outcome.blocks := by
  have hp : ∀ s1 : PaymentService, (addAmount (incrementStat (incrementStat s1 "total")
      "pending") (NewPayment req id now).Amount).workerPool = s1.workerPool := fun _ => rfl
  unfold CreatePayment
  simp only [hp]
  have hid : (NewPayment req id now).ID = id := rfl
  rw [hid]
  split <;> simp_all

theorem submitAsync_error (wp : pool.WorkerPool) (task : pool.Task) (pick : Nat) (err : String)
    (h : (pool.SubmitAsync wp task pick).2 = Outcome.ret (some err)) :
    (pool.SubmitAsync wp task pick).1 = wp ∧
    (err = pool.errQueueFull ∨ err = pool.errShuttingDown) := by
  unfold pool.SubmitAsync at h ⊢
  cases hc : selectCase (pool.submitReady wp) pick with
  | none =>
    simp only [hc] at h ⊢
    simp only [Outcome.ret.injEq, Option.some.injEq] at h
    exact ⟨trivial, Or.inl h.symm⟩
  | some c =>
    cases c with
    | done =>
      simp only [hc] at h ⊢
      simp only [Outcome.ret.injEq, Option.some.injEq] at h
      exact ⟨trivial, Or.inr h.symm⟩
    | send =>
      simp only [hc] at h ⊢
      unfold pool.doSend at h
      split at h
      · simp at h
      · split at h <;> simp at h

/-- C1, evaluated: after `NewPaymentService()`, one `CreatePayment` of amount 10
and the execution of its task with the failure outcome, `GetStats` returns
`total_amount = -10`, while no stored payment is Completed (sum 0) and `total`
is 1; the same holds of `processPayment` called right after `CreatePayment`.
After a success instead, `total_amount` is 0 while the Completed sum is 10. -/
theorem total_amount_after_failure :
    (System.init.run
        [Action.create { UserID := "u1", Amount := 10, Currency := "USD", Description := "" }
          "p1" 0 0,
         Action.select 0, Action.begin "p1" 1, Action.finish "p1" false 2 3 4]).map
      (fun σ => ((GetStats σ.svc 0).TotalAmount, completedAmount σ.svc,
        (GetStats σ.svc 0).TotalPayment, (GetStats σ.svc 0).FailedPayments)) =
      some (-10, 0, 1, 1) ∧
    (GetStats (processPayment (CreatePayment NewPaymentService
        { UserID := "u1", Amount := 10, Currency := "USD", Description := "" } "p1" 0 0).1
        "p1" 1 false 2 3 4).1 0).TotalAmount = -10 ∧
    (System.init.run
        [Action.create { UserID := "u1", Amount := 10, Currency := "USD", Description := "" }
          "p1" 0 0,
         Action.select 0, Action.begin "p1" 1, Action.finish "p1" true 2 3 4]).map
      (fun σ => ((GetStats σ.svc 0).TotalAmount, completedAmount σ.svc)) =
      some (0, 10) := by
  decide

set_option maxRecDepth 100000 in
/-- C2, evaluated: after `NewPaymentService()`, three `CreatePayment` calls for
"u1" of amounts 10, 20 and 30 and the successful execution of the three tasks,
`GetStats` returns total 3, pending 0, processing 0, completed 3, failed 0 and
`total_amount = 0`, while the store holds 3 payments, all Completed, whose
amounts sum to 60. -/
theorem stats_after_three_successes :
    (System.init.run
        [Action.create { UserID := "u1", Amount := 10, Currency := "USD", Description := "" }
          "p1" 0 0,
         Action.create { UserID := "u1", Amount := 20, Currency := "USD", Description := "" }
          "p2" 1 0,
         Action.create { UserID := "u1", Amount := 30, Currency := "USD", Description := "" }
          "p3" 2 0,
         Action.select 0, Action.select 0, Action.select 0,
         Action.begin "p1" 3, Action.begin "p2" 4, Action.begin "p3" 5,
         Action.finish "p1" true 6 7 8, Action.finish "p2" true 9 10 11,
         Action.finish "p3" true 12 13 14]).map
      (fun σ => (GetStats σ.svc 0, completedAmount σ.svc, σ.svc.payments.length,
        countStatus σ.svc StatusCompleted)) =
      some ({ TotalPayment := 3, PendingPayments := 0, ProcessingPayments := 0,
              CompletedPayments := 3, FailedPayments := 0, TotalAmount := 0,
              ActiveGoroutines := 0 }, 60, 3, 3) := by
  decide

/-- C3 as stated fails: `PaymentService.CreatePayment` on a request with an empty
user id, amount 0 and an empty currency returns a receipt, stores a record,
raises `total` and `pending` to 1 and queues a task. -/
theorem createPayment_accepts_invalid :
    (CreatePayment NewPaymentService
        { UserID := "", Amount := 0, Currency := "", Description := "" } "p1" 0 0).2 =
      Outcome.ret (some { PaymentID := "p1", Status := StatusPending,
                          Message := "Payment queue for processing" }, none) ∧
    (CreatePayment NewPaymentService
        { UserID := "", Amount := 0, Currency := "", Description := "" } "p1" 0 0).1.payments.length
      = 1 ∧
    getStat (CreatePayment NewPaymentService
        { UserID := "", Amount := 0, Currency := "", Description := "" } "p1" 0 0).1 "total" = 1 ∧
    getStat (CreatePayment NewPaymentService
        { UserID := "", Amount := 0, Currency := "", Description := "" } "p1" 0 0).1 "pending"
      = 1 ∧
    (CreatePayment NewPaymentService
        { UserID := "", Amount := 0, Currency := "", Description := "" } "p1" 0 0).1.workerPool.taskQueue
      = [{ ID := "p1" }] := by
  decide

/-- C4: a `CreatePayment` call whose identifier is not yet in the store adds
exactly one record, the Pending record of `NewPayment`, at the key of its
`ID`, whatever `SubmitAsync` does. When `SubmitAsync` returns nil the call
returns the receipt with that `ID` and status Pending and no error, and
`GetPayment` of that `ID` then returns the record. When `SubmitAsync` returns an
error (queue full or pool closed) the call returns an error and no receipt, the
pool is as before the call, and the record is stored in Pending. -/
theorem createPayment_stores_pending (s : PaymentService) (req : CreatePaymentRequest)
    (id : String) (now pick : Nat) (hfresh : SyncMap.Load s.payments id = none) :
    (CreatePayment s req id now pick).1.payments = s.payments ++ [(id, NewPayment req id now)] ∧
    (NewPayment req id now).ID = id ∧
    (NewPayment req id now).Status = StatusPending ∧
    SyncMap.Load (CreatePayment s req id now pick).1.payments id =
      some (NewPayment req id now) ∧
    ((pool.SubmitAsync s.workerPool { ID := id } pick).2 = Outcome.ret none →
      (CreatePayment s req id now pick).2 =
        Outcome.ret (some { PaymentID := id, Status := StatusPending,
                            Message := "Payment queue for processing" }, none) ∧
      GetPayment (CreatePayment s req id now pick).1 id = (some (NewPayment req id now), none)) ∧
    (∀ err : String, (pool.SubmitAsync s.workerPool { ID := id } pick).2 =
        Outcome.ret (some err) →
      (err = pool.errQueueFull ∨ err = pool.errShuttingDown) ∧
      (CreatePayment s req id now pick).2 =
        Outcome.ret (none, some ("failed to queue payment for processing: " ++ err)) ∧
      (CreatePayment s req id now pick).1.workerPool = s.workerPool ∧
      GetPayment (CreatePayment s req id now pick).1 id = (some (NewPayment req id now), none)) := by
  have hst := createPayment_state s req id now pick
  have hres := createPayment_result s req id now pick
  have hload : SyncMap.Load (CreatePayment s req id now pick).1.payments id =
      some (NewPayment req id now) := by
    rw [hst.1]; exact SyncMap.Load_Store_self _ _ _
  have hget : GetPayment (CreatePayment s req id now pick).1 id =
      (some (NewPayment req id now), none) := by
    unfold GetPayment
    rw [hload]
  refine ⟨?_, rfl, rfl, hload, ?_, ?_⟩
  · rw [hst.1]; exact SyncMap.Store_of_Load_none _ _ _ hfresh
  · intro hok
    rw [hok] at hres
    exact ⟨hres, hget⟩
  · intro err herr
    have he := submitAsync_error s.workerPool { ID := id } pick err herr
    rw [herr] at hres
    refine ⟨he.2, hres, ?_, hget⟩
    rw [hst.2.1]; exact he.1

theorem sendWebhook_keeps (s : PaymentService) (payment : Payment) (now : Nat) :
    (sendWebhook s payment now).1.payments = s.payments ∧
    (sendWebhook s payment now).1.workerPool = s.workerPool ∧
    (sendWebhook s payment now).1.webhookClosed = s.webhookClosed ∧
    (sendWebhook s payment now).1.stats = s.stats ∧
    (sendWebhook s payment now).1.amounts = s.amounts := by
  unfold sendWebhook
  simp only
  split
  · exact ⟨rfl, rfl, rfl, rfl, rfl⟩
  · split <;> exact ⟨rfl, rfl, rfl, rfl, rfl⟩

theorem sendWebhook_returns (s : PaymentService) (payment : Payment) (now : Nat)
    (hopen : s.webhookClosed = false) : (sendWebhook s payment now).2 = Outcome.ret () := by
  unfold sendWebhook
  by_cases hl : s.webhookChan.length < webhookCap
  · simp [hopen, hl]
  · simp [hopen, hl]

theorem processPaymentBegin_state (s : PaymentService) (id : String) (p : Payment) (t1 : Nat) :
    (processPaymentBegin s id p t1).1.payments =
      SyncMap.Store s.payments id { p with Status := StatusProcessing, UpdatedAt := t1 } ∧
    (processPaymentBegin s id p t1).2 = { p with Status := StatusProcessing, UpdatedAt := t1 } ∧
    (processPaymentBegin s id p t1).1.workerPool = s.workerPool ∧
    (processPaymentBegin s id p t1).1.webhookClosed = s.webhookClosed := by
  unfold processPaymentBegin
  refine ⟨?_, rfl, ?_, ?_⟩
  · show (incrementStat (decrementStat _ "pending") "processing").payments = _
    rw [(incrementStat_frame _ _).1, (decrementStat_frame _ _).1]
  · show (incrementStat (decrementStat _ "pending") "processing").workerPool = _
    rw [(incrementStat_frame _ _).2.1, (decrementStat_frame _ _).2.1]
  · show (incrementStat (decrementStat _ "pending") "processing").webhookClosed = _
    rw [(incrementStat_frame _ _).2.2.2.1, (decrementStat_frame _ _).2.2.2.1]

theorem processPaymentFinish_state (s : PaymentService) (id : String) (p : Payment)
    (success : Bool) (t2 t3 t4 : Nat) :
    (processPaymentFinish s id p success t2 t3 t4).1.payments =
      SyncMap.Store s.payments id
        (if success then
          { p with Status := StatusCompleted, ProcessedAt := some t2, UpdatedAt := t3 }
        else { p with Status := StatusFailed, UpdatedAt := t3 }) ∧
    (processPaymentFinish s id p success t2 t3 t4).1.workerPool = s.workerPool ∧
    (processPaymentFinish s id p success t2 t3 t4).1.webhookClosed = s.webhookClosed ∧
    (s.webhookClosed = false →
      (processPaymentFinish s id p success t2 t3 t4).2 = Outcome.ret none) := by
  have hfst : ∀ (w : PaymentService × Outcome Unit),
      (match w.2 with
        | Outcome.ret _ => (w.1, (Outcome.ret none : Outcome (Option String)))
        | Outcome.panic msg => (w.1, Outcome.panic msg)
        | Outcome.blocks => (w.1, Outcome.blocks)).1 = w.1 := by
    intro w; split <;> rfl
  have hsnd : ∀ (w : PaymentService × Outcome Unit), w.2 = Outcome.ret () →
      (match w.2 with
        | Outcome.ret _ => (w.1, (Outcome.ret none : Outcome (Option String)))
        | Outcome.panic msg => (w.1, Outcome.panic msg)
        | Outcome.blocks => (w.1, Outcome.blocks)).2 = Outcome.ret none := by
    intro w hw; rw [hw]
  unfold processPaymentFinish
  simp only [hfst]
  cases success with
  | true =>
    simp only [if_true]
    refine ⟨?_, ?_, ?_, ?_⟩
    · rw [(sendWebhook_keeps _ _ _).1]
      show SyncMap.Store (incrementStat (decrementStat s "processing") "completed").payments _ _ = _
      rw [(incrementStat_frame _ _).1, (decrementStat_frame _ _).1]
    · rw [(sendWebhook_keeps _ _ _).2.1]
      show (incrementStat (decrementStat s "processing") "completed").workerPool = _
      rw [(incrementStat_frame _ _).2.1, (decrementStat_frame _ _).2.1]
    · rw [(sendWebhook_keeps _ _ _).2.2.1]
      show (incrementStat (decrementStat s "processing") "completed").webhookClosed = _
      rw [(incrementStat_frame _ _).2.2.2.1, (decrementStat_frame _ _).2.2.2.1]
    · intro hc
      apply hsnd
      apply sendWebhook_returns
      show (incrementStat (decrementStat s "processing") "completed").webhookClosed = _
      rw [(incrementStat_frame _ _).2.2.2.1, (decrementStat_frame _ _).2.2.2.1]
      exact hc
  | false =>
    simp only [Bool.false_eq_true, if_false]
    refine ⟨?_, ?_, ?_, ?_⟩
    · rw [(sendWebhook_keeps _ _ _).1]
      show SyncMap.Store (subtractAmount (incrementStat (decrementStat s "processing") "failed")
        p.Amount).payments _ _ = _
      rw [(subtractAmount_frame _ _).1, (incrementStat_frame _ _).1, (decrementStat_frame _ _).1]
    · rw [(sendWebhook_keeps _ _ _).2.1]
      show (subtractAmount (incrementStat (decrementStat s "processing") "failed")
        p.Amount).workerPool = _
      rw [(subtractAmount_frame _ _).2.1, (incrementStat_frame _ _).2.1,
        (decrementStat_frame _ _).2.1]
    · rw [(sendWebhook_keeps _ _ _).2.2.1]
      show (subtractAmount (incrementStat (decrementStat s "processing") "failed")
        p.Amount).webhookClosed = _
      rw [(subtractAmount_frame _ _).2.2.2.1, (incrementStat_frame _ _).2.2.2.1,
        (decrementStat_frame _ _).2.2.2.1]
    · intro hc
      apply hsnd
      apply sendWebhook_returns
      show (subtractAmount (incrementStat (decrementStat s "processing") "failed")
        p.Amount).webhookClosed = _
      rw [(subtractAmount_frame _ _).2.2.2.1, (incrementStat_frame _ _).2.2.2.1,
        (decrementStat_frame _ _).2.2.2.1]
      exact hc

/-- C5: a record made by `NewPayment` at time `t0` and stored under its `ID`,
once `processPayment` has run for it with a last `time.Now()` not before `t0`,
is stored with status Completed or Failed and `UpdatedAt ≥ CreatedAt`; when
Completed its `ProcessedAt` is set, when Failed it is nil. `processPayment`
returns nil when the notification channel is not closed. -/
theorem processPayment_terminal (s : PaymentService) (req : CreatePaymentRequest)
    (id : String) (t0 t1 : Nat) (success : Bool) (t2 t3 t4 : Nat)
    (hstored : SyncMap.Load s.payments id = some (NewPayment req id t0)) (hclock : t0 ≤ t3) :
    ∃ p : Payment,
      SyncMap.Load (processPayment s id t1 success t2 t3 t4).1.payments id = some p ∧
      (p.Status = StatusCompleted ∨ p.Status = StatusFailed) ∧
      p.CreatedAt ≤ p.UpdatedAt ∧
      (p.Status = StatusCompleted → p.ProcessedAt = some t2) ∧
      (p.Status = StatusFailed → p.ProcessedAt = none) ∧
      (success = true → p.Status = StatusCompleted) ∧
      (success = false → p.Status = StatusFailed) ∧
      (s.webhookClosed = false →
        (processPayment s id t1 success t2 t3 t4).2 = Outcome.ret none) := by
  have hb := processPaymentBegin_state s id (NewPayment req id t0) t1
  have hf := processPaymentFinish_state (processPaymentBegin s id (NewPayment req id t0) t1).1 id
    (processPaymentBegin s id (NewPayment req id t0) t1).2 success t2 t3 t4
  have hp : processPayment s id t1 success t2 t3 t4 =
      processPaymentFinish (processPaymentBegin s id (NewPayment req id t0) t1).1 id
        (processPaymentBegin s id (NewPayment req id t0) t1).2 success t2 t3 t4 := by
    unfold processPayment
    rw [hstored]
  rw [hp]
  rw [hb.2.1] at hf ⊢
  have hret : s.webhookClosed = false →
      (processPaymentFinish (processPaymentBegin s id (NewPayment req id t0) t1).1 id
        { NewPayment req id t0 with Status := StatusProcessing, UpdatedAt := t1 }
        success t2 t3 t4).2 = Outcome.ret none := by
    intro hc
    apply hf.2.2.2
    rw [hb.2.2.2]; exact hc
  cases success with
  | true =>
    refine ⟨{ NewPayment req id t0 with Status := StatusCompleted, ProcessedAt := some t2,
                                         UpdatedAt := t3 },
      ?_, Or.inl rfl, hclock, ?_, ?_, ?_, ?_, hret⟩
    · rw [hf.1]; exact SyncMap.Load_Store_self _ _ _
    · intro _; rfl
    · intro h; cases h
    · intro _; rfl
    · intro h; cases h
  | false =>
    refine ⟨{ NewPayment req id t0 with Status := StatusFailed, UpdatedAt := t3 },
      ?_, Or.inr rfl, hclock, ?_, ?_, ?_, ?_, hret⟩
    · rw [hf.1]; exact SyncMap.Load_Store_self _ _ _
    · intro h; cases h
    · intro _; rfl
    · intro h; cases h
    · intro _; rfl

/-- C10: `sendWebhook` on a service whose notification channel is not closed
returns at once and without a result. When the buffer holds fewer events than
its capacity, the buffer afterwards is the buffer before followed by one event
with the payment's `ID`, `Status` and `Amount`; when the buffer is full, it is
unchanged. The payment store, the counters, the total amount and the pool are
the same after the call as before it. -/
theorem sendWebhook_frame (s : PaymentService) (payment : Payment) (now : Nat)
    (hopen : s.webhookClosed = false) :
    (sendWebhook s payment now).2 = Outcome.ret () ∧
    (s.webhookChan.length < webhookCap →
      (sendWebhook s payment now).1.webhookChan =
        s.webhookChan ++ [{ PaymentID := payment.ID, Status := payment.Status,
                            Amount := payment.Amount, TimeStamp := now }]) ∧
    (¬ s.webhookChan.length < webhookCap →
      (sendWebhook s payment now).1.webhookChan = s.webhookChan) ∧
    (sendWebhook s payment now).1.payments = s.payments ∧
    (sendWebhook s payment now).1.stats = s.stats ∧
    (sendWebhook s payment now).1.amounts = s.amounts ∧
    (sendWebhook s payment now).1.workerPool = s.workerPool ∧
    (sendWebhook s payment now).1.webhookClosed = s.webhookClosed := by
  unfold sendWebhook
  by_cases hl : s.webhookChan.length < webhookCap
  · simp [hopen, hl]
  · simp [hopen, hl]

theorem stepOk_refl (x : Option Payment) : stepOk x x := by
  cases x with
  | none => exact trivial
  | some p => exact Or.inl rfl

theorem task_eq (t : pool.Task) (id : String) (h : t.ID = id) : t = { ID := id } := by
  cases t; simp_all

theorem task_stored (σ : System) (h : SysInv σ) (t : pool.Task)
    (ht : t ∈ σ.svc.workerPool.taskQueue ++ σ.svc.workerPool.running) :
    ∃ p, SyncMap.Load σ.svc.payments t.ID = some p := by
  by_cases hf : t.ID ∈ σ.inFlight
  · obtain ⟨_, p, hp, _⟩ := h.flight _ hf
    exact ⟨p, hp⟩
  · obtain ⟨p, hp, _⟩ := h.pending t ht hf
    exact ⟨p, hp⟩

theorem inv_init : SysInv System.init := by
  constructor
  · exact List.nodup_nil
  · intro t ht; simp [System.init, NewPaymentService, pool.Start, pool.NewWorkerPool] at ht
  · intro id hid; simp [System.init] at hid
  · exact List.nodup_nil
  · exact pool.inv_start 10 100

theorem step_create (σ σ1 : System) (h : SysInv σ) (req : CreatePaymentRequest) (id : String)
    (now pick : Nat) (hs : σ.step (Action.create req id now pick) = some σ1) :
    SysInv σ1 ∧ ∀ k, stepOk (SyncMap.Load σ.svc.payments k) (SyncMap.Load σ1.svc.payments k) := by
  unfold System.step at hs
  cases hl : SyncMap.Load σ.svc.payments id with
  | some p => simp [hl] at hs
  | none =>
    simp only [hl, Option.some.injEq] at hs
    subst hs
    have hst := createPayment_state σ.svc req id now pick
    have hsub := pool.submitAsync_running σ.svc.workerPool h.poolInv { ID := id } pick
    have hnew : ({ ID := id } : pool.Task) ∉
        σ.svc.workerPool.taskQueue ++ σ.svc.workerPool.running := by
      intro hmem
      obtain ⟨p, hp⟩ := task_stored σ h _ hmem
      change SyncMap.Load σ.svc.payments id = some p at hp
      rw [hl] at hp
      cases hp
    have hmem : ∀ t, t ∈ (CreatePayment σ.svc req id now pick).1.workerPool.taskQueue ++
        (CreatePayment σ.svc req id now pick).1.workerPool.running →
        t = { ID := id } ∨ t ∈ σ.svc.workerPool.taskQueue ++ σ.svc.workerPool.running := by
      intro t
      rw [hst.2.1, hsub]
      by_cases hp : 0 < σ.svc.workerPool.parked
      · simp only [hp, if_true, List.mem_append, List.mem_singleton]; tauto
      · by_cases hq : σ.svc.workerPool.taskQueue.length < σ.svc.workerPool.queueCap
        · simp only [hp, hq, if_true, if_false, List.mem_append, List.mem_singleton]; tauto
        · simp only [hp, hq, if_false, List.mem_append]; tauto
    have hrun : ∀ t, t ∈ σ.svc.workerPool.running →
        t ∈ (CreatePayment σ.svc req id now pick).1.workerPool.running := by
      intro t
      rw [hst.2.1, hsub]
      by_cases hp : 0 < σ.svc.workerPool.parked
      · simp only [hp, if_true, List.mem_append, List.mem_singleton]; tauto
      · by_cases hq : σ.svc.workerPool.taskQueue.length < σ.svc.workerPool.queueCap
        · simp only [hp, hq, if_true, if_false]; tauto
        · simp only [hp, hq, if_false]; tauto
    have hload : ∀ k, k ≠ id → SyncMap.Load (CreatePayment σ.svc req id now pick).1.payments k =
        SyncMap.Load σ.svc.payments k := by
      intro k hk
      rw [hst.1]
      exact SyncMap.Load_Store_ne _ _ _ _ (Ne.symm hk)
    have hloadid : SyncMap.Load (CreatePayment σ.svc req id now pick).1.payments id =
        some (NewPayment req id now) := by
      rw [hst.1]; exact SyncMap.Load_Store_self _ _ _
    refine ⟨⟨?_, ?_, ?_, h.flightNodup, ?_⟩, ?_⟩
    · show ((CreatePayment σ.svc req id now pick).1.workerPool.taskQueue ++
        (CreatePayment σ.svc req id now pick).1.workerPool.running).Nodup
      have hnd := h.nodup
      rw [hst.2.1, hsub]
      by_cases hp : 0 < σ.svc.workerPool.parked
      · simp only [hp, if_true]
        rw [← List.append_assoc]
        refine List.Nodup.append hnd (List.nodup_singleton _) ?_
        intro a ha ha1
        rw [List.mem_singleton] at ha1
        subst ha1
        exact hnew ha
      · by_cases hq : σ.svc.workerPool.taskQueue.length < σ.svc.workerPool.queueCap
        · simp only [hp, hq, if_true, if_false]
          have hperm : (σ.svc.workerPool.taskQueue ++ [({ ID := id } : pool.Task)] ++
                σ.svc.workerPool.running).Perm
              (({ ID := id } : pool.Task) ::
                (σ.svc.workerPool.taskQueue ++ σ.svc.workerPool.running)) := by
            rw [List.append_assoc]
            exact List.perm_middle
          rw [hperm.nodup_iff]
          exact List.nodup_cons.mpr ⟨hnew, hnd⟩
        · simp only [hp, hq, if_false]
          exact hnd
    · intro t ht hnf
      change t.ID ∉ σ.inFlight at hnf
      rcases hmem t ht with heq | hold
      · subst heq
        exact ⟨NewPayment req id now, hloadid, rfl⟩
      · obtain ⟨p, hp, hpst⟩ := h.pending t hold hnf
        have hne : t.ID ≠ id := by
          intro heq
          exact hnew (task_eq t id heq ▸ hold)
        exact ⟨p, by rw [hload _ hne]; exact hp, hpst⟩
    · intro k hk
      change k ∈ σ.inFlight at hk
      obtain ⟨hr, p, hp, hpst⟩ := h.flight k hk
      have hne : k ≠ id := by
        intro heq
        rw [heq, hl] at hp
        cases hp
      exact ⟨hrun _ hr, p, by rw [hload _ hne]; exact hp, hpst⟩
    · show pool.Inv (CreatePayment σ.svc req id now pick).1.workerPool
      rw [hst.2.1]
      exact pool.inv_submitAsync _ h.poolInv _ _
    · intro k
      show stepOk (SyncMap.Load σ.svc.payments k)
        (SyncMap.Load (CreatePayment σ.svc req id now pick).1.payments k)
      by_cases hk : k = id
      · subst hk
        rw [hl, hloadid]
        exact rfl
      · rw [hload _ hk]
        exact stepOk_refl _

theorem step_select (σ σ1 : System) (h : SysInv σ) (pick : Nat)
    (hs : σ.step (Action.select pick) = some σ1) :
    SysInv σ1 ∧ ∀ k, stepOk (SyncMap.Load σ.svc.payments k) (SyncMap.Load σ1.svc.payments k) := by
  unfold System.step at hs
  cases hw : pool.workerSelect σ.svc.workerPool pick with
  | none => simp [hw] at hs
  | some wp =>
    simp only [hw, Option.some.injEq] at hs
    subst hs
    have hpi := pool.inv_workerSelect _ _ h.poolInv pick hw
    rw [pool.workerSelect_running _ h.poolInv] at hw
    have hperm : (wp.taskQueue ++ wp.running).Perm
        (σ.svc.workerPool.taskQueue ++ σ.svc.workerPool.running) := by
      by_cases ha : σ.svc.workerPool.atSelect = 0
      · simp [ha] at hw
      · cases hq : σ.svc.workerPool.taskQueue with
        | nil =>
          simp only [ha, hq, if_false, Option.some.injEq] at hw
          subst hw
          simp [hq]
        | cons t rest =>
          simp only [ha, hq, if_false, Option.some.injEq] at hw
          subst hw
          show (rest ++ (σ.svc.workerPool.running ++ [t])).Perm
            (t :: rest ++ σ.svc.workerPool.running)
          rw [← List.append_assoc]
          exact List.perm_append_singleton t (rest ++ σ.svc.workerPool.running)
    have hrun : ∀ t, t ∈ σ.svc.workerPool.running → t ∈ wp.running := by
      intro t ht
      by_cases ha : σ.svc.workerPool.atSelect = 0
      · simp [ha] at hw
      · cases hq : σ.svc.workerPool.taskQueue with
        | nil =>
          simp only [ha, hq, if_false, Option.some.injEq] at hw
          subst hw
          exact ht
        | cons t0 rest =>
          simp only [ha, hq, if_false, Option.some.injEq] at hw
          subst hw
          exact List.mem_append_left _ ht
    refine ⟨⟨?_, ?_, ?_, h.flightNodup, hpi⟩, fun k => stepOk_refl _⟩
    · show (wp.taskQueue ++ wp.running).Nodup
      exact hperm.nodup_iff.mpr h.nodup
    · intro t ht hnf
      exact h.pending t (hperm.mem_iff.mp ht) hnf
    · intro k hk
      obtain ⟨hr, hp⟩ := h.flight k hk
      exact ⟨hrun _ hr, hp⟩

theorem step_begin (σ σ1 : System) (h : SysInv σ) (id : String) (t1 : Nat)
    (hs : σ.step (Action.begin id t1) = some σ1) :
    SysInv σ1 ∧ ∀ k, stepOk (SyncMap.Load σ.svc.payments k) (SyncMap.Load σ1.svc.payments k) := by
  unfold System.step at hs
  by_cases hg : ({ ID := id } : pool.Task) ∈ σ.svc.workerPool.running ∧ id ∉ σ.inFlight
  · simp only [hg, not_false_eq_true, and_self, if_true] at hs
    obtain ⟨p, hp, hpst⟩ := h.pending { ID := id } (List.mem_append_right _ hg.1) hg.2
    change SyncMap.Load σ.svc.payments id = some p at hp
    rw [hp] at hs
    simp only [Option.some.injEq] at hs
    subst hs
    have hb := processPaymentBegin_state σ.svc id p t1
    have hload : ∀ k, k ≠ id → SyncMap.Load (processPaymentBegin σ.svc id p t1).1.payments k =
        SyncMap.Load σ.svc.payments k := by
      intro k hk
      rw [hb.1]
      exact SyncMap.Load_Store_ne _ _ _ _ (Ne.symm hk)
    have hloadid : SyncMap.Load (processPaymentBegin σ.svc id p t1).1.payments id =
        some { p with Status := StatusProcessing, UpdatedAt := t1 } := by
      rw [hb.1]; exact SyncMap.Load_Store_self _ _ _
    refine ⟨⟨?_, ?_, ?_, ?_, ?_⟩, ?_⟩
    · show ((processPaymentBegin σ.svc id p t1).1.workerPool.taskQueue ++
        (processPaymentBegin σ.svc id p t1).1.workerPool.running).Nodup
      rw [hb.2.2.1]; exact h.nodup
    · intro t ht hnf
      change t ∈ (processPaymentBegin σ.svc id p t1).1.workerPool.taskQueue ++
        (processPaymentBegin σ.svc id p t1).1.workerPool.running at ht
      change t.ID ∉ id :: σ.inFlight at hnf
      rw [hb.2.2.1] at ht
      rw [List.mem_cons, not_or] at hnf
      obtain ⟨q, hq, hqst⟩ := h.pending t ht hnf.2
      exact ⟨q, by rw [hload _ hnf.1]; exact hq, hqst⟩
    · intro k hk
      change k ∈ id :: σ.inFlight at hk
      show _ ∈ (processPaymentBegin σ.svc id p t1).1.workerPool.running ∧
        ∃ q, SyncMap.Load (processPaymentBegin σ.svc id p t1).1.payments k = some q ∧ _
      rw [hb.2.2.1]
      rcases List.mem_cons.mp hk with heq | hin
      · subst heq
        exact ⟨hg.1, _, hloadid, rfl⟩
      · obtain ⟨hr, q, hq, hqst⟩ := h.flight k hin
        have hne : k ≠ id := fun heq => hg.2 (heq ▸ hin)
        exact ⟨hr, q, by rw [hload _ hne]; exact hq, hqst⟩
    · show (id :: σ.inFlight).Nodup
      exact List.nodup_cons.mpr ⟨hg.2, h.flightNodup⟩
    · show pool.Inv (processPaymentBegin σ.svc id p t1).1.workerPool
      rw [hb.2.2.1]; exact h.poolInv
    · intro k
      show stepOk (SyncMap.Load σ.svc.payments k)
        (SyncMap.Load (processPaymentBegin σ.svc id p t1).1.payments k)
      by_cases hk : k = id
      · subst hk
        rw [hp, hloadid]
        exact Or.inr (Or.inl ⟨hpst, rfl⟩)
      · rw [hload _ hk]
        exact stepOk_refl _
  · simp only [hg, if_false] at hs
    cases hs

theorem step_finish (σ σ1 : System) (h : SysInv σ) (id : String) (success : Bool)
    (t2 t3 t4 : Nat) (hs : σ.step (Action.finish id success t2 t3 t4) = some σ1) :
    SysInv σ1 ∧ ∀ k, stepOk (SyncMap.Load σ.svc.payments k) (SyncMap.Load σ1.svc.payments k) := by
  unfold System.step at hs
  by_cases hg : id ∈ σ.inFlight
  · simp only [hg, if_true] at hs
    obtain ⟨hrun, p, hp, hpst⟩ := h.flight id hg
    rw [hp] at hs
    simp only at hs
    have hf := processPaymentFinish_state σ.svc id p success t2 t3 t4
    cases hw : pool.workerFinish (processPaymentFinish σ.svc id p success t2 t3 t4).1.workerPool
        { ID := id } with
    | none => simp [hw] at hs
    | some wp =>
      simp only [hw, Option.some.injEq] at hs
      subst hs
      rw [hf.2.1] at hw
      have hpi := pool.inv_workerFinish _ _ h.poolInv _ hw
      unfold pool.workerFinish at hw
      simp only [hrun, if_true, Option.some.injEq] at hw
      subst hw
      have hnd := h.nodup
      have hndr : σ.svc.workerPool.running.Nodup := (List.nodup_append.mp hnd).2.1
      have hload : ∀ k, k ≠ id →
          SyncMap.Load (processPaymentFinish σ.svc id p success t2 t3 t4).1.payments k =
          SyncMap.Load σ.svc.payments k := by
        intro k hk
        rw [hf.1]
        exact SyncMap.Load_Store_ne _ _ _ _ (Ne.symm hk)
      have hloadid : SyncMap.Load (processPaymentFinish σ.svc id p success t2 t3 t4).1.payments id =
          some (if success then
            { p with Status := StatusCompleted, ProcessedAt := some t2, UpdatedAt := t3 }
          else { p with Status := StatusFailed, UpdatedAt := t3 }) := by
        rw [hf.1]; exact SyncMap.Load_Store_self _ _ _
      have hsub : ∀ t, t ∈ σ.svc.workerPool.taskQueue ++
          σ.svc.workerPool.running.erase { ID := id } →
          t ∈ σ.svc.workerPool.taskQueue ++ σ.svc.workerPool.running ∧ t.ID ≠ id := by
        intro t ht
        rcases List.mem_append.mp ht with hq | hr
        · refine ⟨List.mem_append_left _ hq, ?_⟩
          intro heq
          have : t = { ID := id } := task_eq t id heq
          subst this
          exact (List.nodup_append.mp hnd).2.2 hq hrun
        · have := (List.Nodup.mem_erase_iff hndr).mp hr
          refine ⟨List.mem_append_right _ this.2, ?_⟩
          intro heq
          exact this.1 (task_eq t id heq)
      refine ⟨⟨?_, ?_, ?_, ?_, hpi⟩, ?_⟩
      · show (σ.svc.workerPool.taskQueue ++ σ.svc.workerPool.running.erase { ID := id }).Nodup
        exact List.Nodup.sublist
          (List.Sublist.append (List.Sublist.refl _) (List.erase_sublist _ _)) hnd
      · intro t ht hnf
        change t ∈ σ.svc.workerPool.taskQueue ++ σ.svc.workerPool.running.erase { ID := id } at ht
        change t.ID ∉ σ.inFlight.erase id at hnf
        obtain ⟨hold, hne⟩ := hsub t ht
        have hnf2 : t.ID ∉ σ.inFlight := by
          intro hin
          exact hnf ((List.mem_erase_of_ne hne).mpr hin)
        obtain ⟨q, hq, hqst⟩ := h.pending t hold hnf2
        exact ⟨q, by rw [hload _ hne]; exact hq, hqst⟩
      · intro k hk
        change k ∈ σ.inFlight.erase id at hk
        have hk2 := (List.Nodup.mem_erase_iff h.flightNodup).mp hk
        obtain ⟨hr, q, hq, hqst⟩ := h.flight k hk2.2
        refine ⟨?_, q, by rw [hload _ hk2.1]; exact hq, hqst⟩
        show _ ∈ σ.svc.workerPool.running.erase { ID := id }
        refine (List.Nodup.mem_erase_iff hndr).mpr ⟨?_, hr⟩
        intro heq
        exact hk2.1 (congrArg pool.Task.ID heq)
      · show (σ.inFlight.erase id).Nodup
        exact List.Nodup.erase _ h.flightNodup
      · intro k
        show stepOk (SyncMap.Load σ.svc.payments k)
          (SyncMap.Load (processPaymentFinish σ.svc id p success t2 t3 t4).1.payments k)
        by_cases hk : k = id
        · subst hk
          rw [hp, hloadid]
          cases success with
          | true => exact Or.inr (Or.inr ⟨hpst, Or.inl rfl⟩)
          | false => exact Or.inr (Or.inr ⟨hpst, Or.inr rfl⟩)
        · rw [hload _ hk]
          exact stepOk_refl _
  · simp only [hg, if_false] at hs
    cases hs

theorem step_inv (σ σ1 : System) (h : SysInv σ) (a : Action) (hs : σ.step a = some σ1) :
    SysInv σ1 ∧ ∀ k, stepOk (SyncMap.Load σ.svc.payments k) (SyncMap.Load σ1.svc.payments k) := by
  cases a with
  | create req id now pick => exact step_create σ σ1 h req id now pick hs
  | select pick => exact step_select σ σ1 h pick hs
  | begin id t1 => exact step_begin σ σ1 h id t1 hs
  | finish id success t2 t3 t4 => exact step_finish σ σ1 h id success t2 t3 t4 hs

theorem run_inv (as : List Action) : ∀ σ σ1 : System, SysInv σ → σ.run as = some σ1 →
    SysInv σ1 := by
  induction as with
  | nil =>
    intro σ σ1 h hr
    simp only [System.run, Option.some.injEq] at hr
    subst hr
    exact h
  | cons a rest ih =>
    intro σ σ1 h hr
    unfold System.run at hr
    cases hs : σ.step a with
    | none => simp [hs] at hr
    | some σ2 =>
      simp only [hs] at hr
      exact ih σ2 σ1 (step_inv σ σ2 h a hs).1 hr

theorem laterOk_refl (x : Option Payment) : laterOk x x := by
  cases x with
  | none => exact trivial
  | some p => exact Or.inl rfl

theorem laterOk_step (x y z : Option Payment) (h1 : stepOk x y) (h2 : laterOk y z) :
    laterOk x z := by
  cases x with
  | none => exact trivial
  | some p =>
    cases y with
    | none => exact h1.elim
    | some q =>
      cases z with
      | none => exact h2.elim
      | some r =>
        change reaches p.Status r.Status
        change reaches q.Status r.Status at h2
        unfold reaches at *
        rcases h1 with h1 | ⟨h1, _⟩ | ⟨h1, h1b⟩
        · rw [← h1]; exact h2
        · exact Or.inr (Or.inl h1)
        · rcases h2 with h2 | h2 | ⟨h2, _⟩
          · rw [← h2]; exact Or.inr (Or.inr ⟨h1, h1b⟩)
          · rcases h1b with h1b | h1b <;> rw [h1b] at h2 <;> cases h2
          · rcases h1b with h1b | h1b <;> rw [h1b] at h2 <;> cases h2

theorem run_later (as : List Action) : ∀ σ σ1 : System, SysInv σ → σ.run as = some σ1 →
    ∀ k, laterOk (SyncMap.Load σ.svc.payments k) (SyncMap.Load σ1.svc.payments k) := by
  induction as with
  | nil =>
    intro σ σ1 _ hr k
    simp only [System.run, Option.some.injEq] at hr
    subst hr
    exact laterOk_refl _
  | cons a rest ih =>
    intro σ σ1 h hr k
    unfold System.run at hr
    cases hs : σ.step a with
    | none => simp [hs] at hr
    | some σ2 =>
      simp only [hs] at hr
      have h2 := step_inv σ σ2 h a hs
      exact laterOk_step _ _ _ (h2.2 k) (ih σ2 σ1 h2.1 hr k)

/-- C6: in every run of `CreatePayment` calls and of workers taking tasks and
executing them, from `NewPaymentService()`, each action leaves the record of
every payment in place with its status unchanged, or moved from Pending to
Processing, or from Processing to Completed or Failed, and a new record is
Pending; between any two points of the run a status never goes back: a
Processing record is never Pending again and a Completed or Failed record
keeps its status. No task is in the pool twice, and a worker cannot begin
`processPayment` for a payment whose status is no longer Pending. -/
theorem status_order (as : List Action) (a : Action) (bs : List Action) (σ σ1 σ2 : System)
    (h0 : System.init.run as = some σ) (h1 : σ.step a = some σ1) (h2 : σ1.run bs = some σ2)
    (id : String) :
    stepOk (SyncMap.Load σ.svc.payments id) (SyncMap.Load σ1.svc.payments id) ∧
    laterOk (SyncMap.Load σ.svc.payments id) (SyncMap.Load σ2.svc.payments id) ∧
    (∀ p q, SyncMap.Load σ.svc.payments id = some p →
      SyncMap.Load σ2.svc.payments id = some q →
      (p.Status = StatusProcessing → q.Status ≠ StatusPending) ∧
      (p.Status = StatusCompleted → q.Status = StatusCompleted) ∧
      (p.Status = StatusFailed → q.Status = StatusFailed)) ∧
    (σ2.svc.workerPool.taskQueue ++ σ2.svc.workerPool.running).Nodup ∧
    (∀ p t1, SyncMap.Load σ2.svc.payments id = some p → p.Status ≠ StatusPending →
      σ2.step (Action.begin id t1) = none) := by
  have hi := run_inv as _ _ inv_init h0
  have hs := step_inv σ σ1 hi a h1
  have hi2 := run_inv bs _ _ hs.1 h2
  have hl := laterOk_step _ _ _ (hs.2 id) (run_later bs _ _ hs.1 h2 id)
  refine ⟨hs.2 id, hl, ?_, hi2.nodup, ?_⟩
  · intro p q hp hq
    rw [hp, hq] at hl
    change reaches p.Status q.Status at hl
    unfold reaches at hl
    refine ⟨?_, ?_, ?_⟩
    · intro hst hq2
      rw [hst, hq2] at hl
      rcases hl with hl | hl | ⟨_, hl | hl⟩ <;> cases hl
    · intro hst
      rw [hst] at hl
      rcases hl with hl | hl | ⟨hl, _⟩
      · exact hl.symm
      · cases hl
      · cases hl
    · intro hst
      rw [hst] at hl
      rcases hl with hl | hl | ⟨hl, _⟩
      · exact hl.symm
      · cases hl
      · cases hl
  · intro p t1 hp hne
    unfold System.step
    by_cases hg : ({ ID := id } : pool.Task) ∈ σ2.svc.workerPool.running ∧ id ∉ σ2.inFlight
    · obtain ⟨q, hq, hqst⟩ := hi2.pending { ID := id } (List.mem_append_right _ hg.1) hg.2
      change SyncMap.Load σ2.svc.payments id = some q at hq
      rw [hp] at hq
      cases hq
      exact absurd hqst hne
    · simp only [hg, if_false]

/-- C4 at the new service: the first `CreatePayment` stores its record. -/
theorem createPayment_stores_pending_witness :
    SyncMap.Load NewPaymentService.payments "p1" = none ∧
    (CreatePayment NewPaymentService
        { UserID := "u1", Amount := 10, Currency := "USD", Description := "" } "p1" 7 0).1.payments
      = NewPaymentService.payments ++
        [("p1", NewPayment { UserID := "u1", Amount := 10, Currency := "USD", Description := "" }
          "p1" 7)] :=
  ⟨by decide,
    (createPayment_stores_pending NewPaymentService
      { UserID := "u1", Amount := 10, Currency := "USD", Description := "" } "p1" 7 0
      (by decide)).1⟩

/-- C5 at the new service after one `CreatePayment`: the record is stored and
is Failed after a `processPayment` that fails. -/
theorem processPayment_terminal_witness :
    SyncMap.Load (CreatePayment NewPaymentService
        { UserID := "u1", Amount := 10, Currency := "USD", Description := "" } "p1" 7 0).1.payments
        "p1" =
      some (NewPayment { UserID := "u1", Amount := 10, Currency := "USD", Description := "" }
        "p1" 7) ∧
    (7 : Nat) ≤ 9 ∧
    ∃ p : Payment,
      SyncMap.Load (processPayment (CreatePayment NewPaymentService
          { UserID := "u1", Amount := 10, Currency := "USD", Description := "" } "p1" 7 0).1
          "p1" 8 false 9 9 10).1.payments "p1" = some p ∧
      (p.Status = StatusCompleted ∨ p.Status = StatusFailed) ∧
      p.CreatedAt ≤ p.UpdatedAt :=
  ⟨by decide, by decide,
    (processPayment_terminal (CreatePayment NewPaymentService
        { UserID := "u1", Amount := 10, Currency := "USD", Description := "" } "p1" 7 0).1
      { UserID := "u1", Amount := 10, Currency := "USD", Description := "" } "p1" 7 8 false 9 9 10
      (by decide) (by decide)).imp fun _ h => ⟨h.1, h.2.1, h.2.2.1⟩⟩

/-- C6 on a run of one payment: created, taken by a worker, begun, ended. -/
theorem status_order_witness :
    laterOk
      (SyncMap.Load ((System.init.run
        [Action.create { UserID := "u1", Amount := 10, Currency := "USD", Description := "" }
          "p1" 0 0, Action.select 0]).getD System.init).svc.payments "p1")
      (SyncMap.Load ((System.init.run
        [Action.create { UserID := "u1", Amount := 10, Currency := "USD", Description := "" }
          "p1" 0 0, Action.select 0, Action.begin "p1" 1,
          Action.finish "p1" true 2 3 4]).getD System.init).svc.payments "p1") :=
  (status_order
    [Action.create { UserID := "u1", Amount := 10, Currency := "USD", Description := "" }
      "p1" 0 0, Action.select 0]
    (Action.begin "p1" 1) [Action.finish "p1" true 2 3 4]
    ((System.init.run
        [Action.create { UserID := "u1", Amount := 10, Currency := "USD", Description := "" }
          "p1" 0 0, Action.select 0]).getD System.init)
    ((System.init.run
        [Action.create { UserID := "u1", Amount := 10, Currency := "USD", Description := "" }
          "p1" 0 0, Action.select 0, Action.begin "p1" 1]).getD System.init)
    ((System.init.run
        [Action.create { UserID := "u1", Amount := 10, Currency := "USD", Description := "" }
          "p1" 0 0, Action.select 0, Action.begin "p1" 1,
          Action.finish "p1" true 2 3 4]).getD System.init)
    (by decide) (by decide) (by decide) "p1").2.1

/-- C10 at the new service: the event of a payment is appended to the empty buffer. -/
theorem sendWebhook_frame_witness :
    NewPaymentService.webhookClosed = false ∧
    (sendWebhook NewPaymentService
        (NewPayment { UserID := "u1", Amount := 10, Currency := "USD", Description := "" }
          "p1" 7) 9).1.webhookChan =
      NewPaymentService.webhookChan ++
        [{ PaymentID := "p1", Status := StatusPending, Amount := 10, TimeStamp := 9 }] :=
  ⟨rfl,
    (sendWebhook_frame NewPaymentService
      (NewPayment { UserID := "u1", Amount := 10, Currency := "USD", Description := "" }
        "p1" 7) 9 rfl).2.1 (by decide)⟩

theorem wrapInt64_of_bounds (x : Int) (h0 : 0 ≤ x) (h1 : x < 2 ^ 63) : wrapInt64 x = x := by
  unfold wrapInt64
  have h : (x + 2 ^ 63) % 2 ^ 64 = x + 2 ^ 63 :=
    Int.emod_eq_of_lt (by omega) (by omega)
  rw [h]
  omega

theorem getStat_congr (s s1 : PaymentService) (key : String) (h : s.stats = s1.stats) :
    getStat s key = getStat s1 key := by
  unfold getStat
  rw [h]

theorem getAmount_congr (s s1 : PaymentService) (h : s.amounts = s1.amounts) :
    getAmount s = getAmount s1 := by
  unfold getAmount
  rw [h]

theorem getStat_incrementStat_self (s : PaymentService) (key : String) :
    getStat (incrementStat s key) key = wrapInt64 (getStat s key + 1) := by
  unfold getStat incrementStat SyncMap.LoadOrStore
  cases h : SyncMap.Load s.stats key with
  | none => simp only [SyncMap.Load_Store_self]
  | some v => simp only [SyncMap.Load_Store_self]

theorem getStat_incrementStat_ne (s : PaymentService) (key k : String) (hne : key ≠ k) :
    getStat (incrementStat s key) k = getStat s k := by
  unfold getStat incrementStat SyncMap.LoadOrStore
  cases h : SyncMap.Load s.stats key with
  | none => simp only [SyncMap.Load_Store_ne _ _ _ _ hne]
  | some v => simp only [SyncMap.Load_Store_ne _ _ _ _ hne]

theorem getStat_decrementStat_self (s : PaymentService) (key : String) :
    getStat (decrementStat s key) key =
      if getStat s key > 0 then getStat s key - 1 else getStat s key := by
  unfold getStat decrementStat SyncMap.LoadOrStore
  cases h : SyncMap.Load s.stats key with
  | none => simp [SyncMap.Load_Store_self]
  | some v =>
    by_cases hv : v > 0
    · simp [hv, SyncMap.Load_Store_self]
    · simp [hv, h]

theorem getStat_decrementStat_ne (s : PaymentService) (key k : String) (hne : key ≠ k) :
    getStat (decrementStat s key) k = getStat s k := by
  unfold getStat decrementStat SyncMap.LoadOrStore
  cases h : SyncMap.Load s.stats key with
  | none => simp [SyncMap.Load_Store_ne _ _ _ _ hne]
  | some v =>
    by_cases hv : v > 0
    · simp [hv, SyncMap.Load_Store_ne _ _ _ _ hne]
    · simp [hv]

theorem getAmount_addAmount (s : PaymentService) (amount : Int) :
    getAmount (addAmount s amount) = getAmount s := by
  unfold getAmount addAmount SyncMap.LoadOrStore
  cases h : SyncMap.Load s.amounts "total_amount" with
  | none => simp only [SyncMap.Load_Store_self]
  | some v => simp only [SyncMap.Load_Store_self]

theorem getAmount_subtractAmount (s : PaymentService) (amount : Int) :
    getAmount (subtractAmount s amount) = getAmount s - amount := by
  unfold getAmount subtractAmount SyncMap.LoadOrStore
  cases h : SyncMap.Load s.amounts "total_amount" with
  | none => simp only [SyncMap.Load_Store_self]
  | some v => simp only [SyncMap.Load_Store_self]

theorem incrementStat_congr (s s1 : PaymentService) (key : String) (h : s.stats = s1.stats) :
    (incrementStat s key).stats = (incrementStat s1 key).stats := by
  unfold incrementStat
  simp only [h]

theorem decrementStat_congr (s s1 : PaymentService) (key : String) (h : s.stats = s1.stats) :
    (decrementStat s key).stats = (decrementStat s1 key).stats := by
  unfold decrementStat
  simp only [h]
  split <;> rfl

theorem subtractAmount_congr (s s1 : PaymentService) (amount : Int)
    (h : s.amounts = s1.amounts) :
    (subtractAmount s amount).amounts = (subtractAmount s1 amount).amounts := by
  unfold subtractAmount
  simp only [h]

theorem addAmount_congr (s s1 : PaymentService) (amount : Int) (h : s.amounts = s1.amounts) :
    (addAmount s amount).amounts = (addAmount s1 amount).amounts := by
  unfold addAmount
  simp only [h]

/-- The statistics `CreatePayment` leaves. -/
theorem createPayment_stats (s : PaymentService) (req : CreatePaymentRequest) (id : String)
    (now pick : Nat) :
    (CreatePayment s req id now pick).1.stats =
      (incrementStat (incrementStat s "total") "pending").stats ∧
    (CreatePayment s req id now pick).1.amounts = (addAmount s req.Amount).amounts := by
  have h1 : (CreatePayment s req id now pick).1.stats =
      (incrementStat (incrementStat { s with payments := (SyncMap.Store s.payments
        (NewPayment req id now).ID (NewPayment req id now)) } "total") "pending").stats := by
    unfold CreatePayment
    simp only
    split <;> rfl
  have h2 : (CreatePayment s req id now pick).1.amounts =
      (addAmount (incrementStat (incrementStat { s with payments := (SyncMap.Store s.payments
        (NewPayment req id now).ID (NewPayment req id now)) } "total") "pending")
        (NewPayment req id now).Amount).amounts := by
    unfold CreatePayment
    simp only
    split <;> rfl
  constructor
  · rw [h1]
    exact incrementStat_congr _ _ _ (incrementStat_congr _ _ _ rfl)
  · rw [h2]
    refine addAmount_congr _ _ _ ?_
    rw [(incrementStat_frame _ _).2.2.2.2, (incrementStat_frame _ _).2.2.2.2]

/-- The statistics the first part of `processPayment` leaves. -/
theorem processPaymentBegin_stats (s : PaymentService) (id : String) (p : Payment) (t1 : Nat) :
    (processPaymentBegin s id p t1).1.stats =
      (incrementStat (decrementStat s "pending") "processing").stats ∧
    (processPaymentBegin s id p t1).1.amounts = s.amounts := by
  unfold processPaymentBegin
  constructor
  · show (incrementStat (decrementStat _ "pending") "processing").stats = _
    exact incrementStat_congr _ _ _ (decrementStat_congr _ _ _ rfl)
  · show (incrementStat (decrementStat _ "pending") "processing").amounts = _
    rw [(incrementStat_frame _ _).2.2.2.2, (decrementStat_frame _ _).2.2.2.2]

/-- The statistics the second part of `processPayment` leaves. -/
theorem processPaymentFinish_stats (s : PaymentService) (id : String) (p : Payment)
    (success : Bool) (t2 t3 t4 : Nat) :
    (processPaymentFinish s id p success t2 t3 t4).1.stats =
      (incrementStat (decrementStat s "processing")
        (if success then "completed" else "failed")).stats ∧
    (processPaymentFinish s id p success t2 t3 t4).1.amounts =
      if success then s.amounts else (subtractAmount s p.Amount).amounts := by
  have hfst : ∀ (w : PaymentService × Outcome Unit),
      (match w.2 with
        | Outcome.ret _ => (w.1, (Outcome.ret none : Outcome (Option String)))
        | Outcome.panic msg => (w.1, Outcome.panic msg)
        | Outcome.blocks => (w.1, Outcome.blocks)).1 = w.1 := by
    intro w; split <;> rfl
  unfold processPaymentFinish
  simp only [hfst]
  rw [(sendWebhook_keeps _ _ _).2.2.2.1, (sendWebhook_keeps _ _ _).2.2.2.2]
  cases success with
  | true =>
    constructor
    · rfl
    · show (incrementStat (decrementStat s "processing") "completed").amounts = _
      rw [(incrementStat_frame _ _).2.2.2.2, (decrementStat_frame _ _).2.2.2.2]
      rfl
  | false =>
    constructor
    · rfl
    · show (subtractAmount (incrementStat (decrementStat s "processing") "failed")
        p.Amount).amounts = (subtractAmount s p.Amount).amounts
      refine subtractAmount_congr _ _ _ ?_
      rw [(incrementStat_frame _ _).2.2.2.2, (decrementStat_frame _ _).2.2.2.2]

theorem countStatus_le (s : PaymentService) (st : PaymentStatus) :
    0 ≤ countStatus s st ∧ countStatus s st ≤ (s.payments.length : Int) := by
  unfold countStatus
  exact ⟨Int.ofNat_nonneg _, Int.ofNat_le.mpr (List.length_filter_le _ _)⟩

theorem countStatus_replace (s s1 : PaymentService) (l1 l2 : List (String × Payment))
    (k : String) (p p1 : Payment) (h : s.payments = l1 ++ (k, p) :: l2)
    (h1 : s1.payments = l1 ++ (k, p1) :: l2) (st : PaymentStatus) :
    countStatus s1 st + (if p.Status = st then 1 else 0) =
      countStatus s st + (if p1.Status = st then 1 else 0) := by
  unfold countStatus
  rw [h, h1]
  simp only [List.filter_append, List.filter_cons, List.length_append]
  by_cases hp : p.Status = st <;> by_cases hp1 : p1.Status = st <;>
    simp [hp, hp1] <;> omega

theorem failedAmount_replace (s s1 : PaymentService) (l1 l2 : List (String × Payment))
    (k : String) (p p1 : Payment) (h : s.payments = l1 ++ (k, p) :: l2)
    (h1 : s1.payments = l1 ++ (k, p1) :: l2) :
    failedAmount s1 + (if p.Status = StatusFailed then p.Amount else 0) =
      failedAmount s + (if p1.Status = StatusFailed then p1.Amount else 0) := by
  unfold failedAmount
  rw [h, h1]
  simp only [List.filter_append, List.filter_cons, List.map_append, List.sum_append]
  by_cases hp : p.Status = StatusFailed <;> by_cases hp1 : p1.Status = StatusFailed <;>
    simp [hp, hp1] <;> omega

theorem countStatus_append (s s1 : PaymentService) (k : String) (p1 : Payment)
    (h1 : s1.payments = s.payments ++ [(k, p1)]) (st : PaymentStatus) :
    countStatus s1 st = countStatus s st + (if p1.Status = st then 1 else 0) := by
  unfold countStatus
  rw [h1]
  simp only [List.filter_append, List.filter_cons, List.length_append]
  by_cases hp1 : p1.Status = st <;> simp [hp1]

theorem failedAmount_append (s s1 : PaymentService) (k : String) (p1 : Payment)
    (h1 : s1.payments = s.payments ++ [(k, p1)]) :
    failedAmount s1 = failedAmount s + (if p1.Status = StatusFailed then p1.Amount else 0) := by
  unfold failedAmount
  rw [h1]
  simp only [List.filter_append, List.filter_cons, List.map_append, List.sum_append]
  by_cases hp1 : p1.Status = StatusFailed <;> simp [hp1]

theorem statsInv_congr (s s1 : PaymentService) (hp : s1.payments = s.payments)
    (hs : s1.stats = s.stats) (ha : s1.amounts = s.amounts) (h : StatsInv s) : StatsInv s1 := by
  have hg : ∀ key, getStat s1 key = getStat s key := fun key => getStat_congr _ _ key hs
  have hc : ∀ st, countStatus s1 st = countStatus s st := by
    intro st; unfold countStatus; rw [hp]
  constructor
  · rw [hg, hp]; exact h.total
  · rw [hg, hc]; exact h.pending
  · rw [hg, hc]; exact h.processing
  · rw [hg, hc]; exact h.completed
  · rw [hg, hc]; exact h.failed
  · rw [getAmount_congr _ _ ha]
    unfold failedAmount
    rw [hp]
    exact h.amount

/-- `CreatePayment` keeps the statistics a projection of the store. -/
theorem stats_create (s : PaymentService) (req : CreatePaymentRequest) (id : String)
    (now pick : Nat) (hfresh : SyncMap.Load s.payments id = none) (h : StatsInv s)
    (hb : ((CreatePayment s req id now pick).1.payments.length : Int) < 2 ^ 63) :
    StatsInv (CreatePayment s req id now pick).1 := by
  have hst := createPayment_stats s req id now pick
  have hpay : (CreatePayment s req id now pick).1.payments =
      s.payments ++ [(id, NewPayment req id now)] := by
    rw [(createPayment_state s req id now pick).1]
    exact SyncMap.Store_of_Load_none _ _ _ hfresh
  have hlen : ((CreatePayment s req id now pick).1.payments.length : Int) =
      (s.payments.length : Int) + 1 := by
    rw [hpay]; simp
  rw [hlen] at hb
  have hg : ∀ key, getStat (CreatePayment s req id now pick).1 key =
      getStat (incrementStat (incrementStat s "total") "pending") key :=
    fun key => getStat_congr _ _ key hst.1
  have hcnt := countStatus_append s _ id (NewPayment req id now) hpay
  have hle := countStatus_le s StatusPending
  have hnew : (NewPayment req id now).Status = StatusPending := rfl
  constructor
  · rw [hg, getStat_incrementStat_ne _ _ _ (by decide), getStat_incrementStat_self, h.total,
      hlen]
    exact wrapInt64_of_bounds _ (by omega) hb
  · rw [hg, getStat_incrementStat_self, getStat_incrementStat_ne _ _ _ (by decide), h.pending,
      hcnt, hnew]
    simp only [if_true]
    exact wrapInt64_of_bounds _ (by omega) (by omega)
  · rw [hg, getStat_incrementStat_ne _ _ _ (by decide),
      getStat_incrementStat_ne _ _ _ (by decide), h.processing, hcnt, hnew]
    simp
  · rw [hg, getStat_incrementStat_ne _ _ _ (by decide),
      getStat_incrementStat_ne _ _ _ (by decide), h.completed, hcnt, hnew]
    simp
  · rw [hg, getStat_incrementStat_ne _ _ _ (by decide),
      getStat_incrementStat_ne _ _ _ (by decide), h.failed, hcnt, hnew]
    simp
  · rw [getAmount_congr _ _ hst.2, getAmount_addAmount, h.amount,
      failedAmount_append s _ id (NewPayment req id now) hpay, hnew]
    simp

/-- The first part of `processPayment`, on a Pending record, keeps the
statistics a projection of the store. -/
theorem stats_begin (s : PaymentService) (id : String) (p : Payment) (t1 : Nat)
    (hl : SyncMap.Load s.payments id = some p) (hp : p.Status = StatusPending)
    (h : StatsInv s) (hb : (s.payments.length : Int) < 2 ^ 63) :
    StatsInv (processPaymentBegin s id p t1).1 ∧
    (processPaymentBegin s id p t1).1.payments.length = s.payments.length := by
  obtain ⟨l1, l2, hm, hm1⟩ := SyncMap.Store_present s.payments id p
    { p with Status := StatusProcessing, UpdatedAt := t1 } hl
  have hpay : (processPaymentBegin s id p t1).1.payments =
      l1 ++ (id, { p with Status := StatusProcessing, UpdatedAt := t1 }) :: l2 := by
    rw [(processPaymentBegin_state s id p t1).1, hm1]
  have hlen : (processPaymentBegin s id p t1).1.payments.length = s.payments.length := by
    rw [hpay, hm]; simp
  have hst := processPaymentBegin_stats s id p t1
  have hg : ∀ key, getStat (processPaymentBegin s id p t1).1 key =
      getStat (incrementStat (decrementStat s "pending") "processing") key :=
    fun key => getStat_congr _ _ key hst.1
  have hcnt := countStatus_replace s _ l1 l2 id p _ hm hpay
  have hfa := failedAmount_replace s _ l1 l2 id p _ hm hpay
  simp only [hp] at hcnt hfa
  have hc1 := hcnt StatusPending
  have hc2 := hcnt StatusProcessing
  have hc3 := hcnt StatusCompleted
  have hc4 := hcnt StatusFailed
  simp at hc1 hc2 hc3 hc4 hfa
  have hle1 := countStatus_le (processPaymentBegin s id p t1).1 StatusPending
  have hle2 := countStatus_le s StatusProcessing
  have hle3 := countStatus_le (processPaymentBegin s id p t1).1 StatusProcessing
  have hlenI : ((processPaymentBegin s id p t1).1.payments.length : Int) =
      (s.payments.length : Int) := by rw [hlen]
  refine ⟨⟨?_, ?_, ?_, ?_, ?_, ?_⟩, hlen⟩
  · rw [hg, getStat_incrementStat_ne _ _ _ (by decide),
      getStat_decrementStat_ne _ _ _ (by decide), h.total, hlen]
  · rw [hg, getStat_incrementStat_ne _ _ _ (by decide), getStat_decrementStat_self, h.pending]
    have hpos : countStatus s StatusPending > 0 := by omega
    rw [if_pos hpos]
    omega
  · rw [hg, getStat_incrementStat_self, getStat_decrementStat_ne _ _ _ (by decide),
      h.processing]
    rw [wrapInt64_of_bounds _ (by omega) (by omega)]
    omega
  · rw [hg, getStat_incrementStat_ne _ _ _ (by decide),
      getStat_decrementStat_ne _ _ _ (by decide), h.completed]
    omega
  · rw [hg, getStat_incrementStat_ne _ _ _ (by decide),
      getStat_decrementStat_ne _ _ _ (by decide), h.failed]
    omega
  · rw [getAmount_congr _ _ hst.2, h.amount]
    omega

/-- The second part of `processPayment`, on a Processing record, keeps the
statistics a projection of the store. -/
theorem stats_finish (s : PaymentService) (id : String) (p : Payment) (success : Bool)
    (t2 t3 t4 : Nat) (hl : SyncMap.Load s.payments id = some p)
    (hp : p.Status = StatusProcessing) (h : StatsInv s)
    (hb : (s.payments.length : Int) < 2 ^ 63) :
    StatsInv (processPaymentFinish s id p success t2 t3 t4).1 ∧
    (processPaymentFinish s id p success t2 t3 t4).1.payments.length = s.payments.length := by
  have hfs := processPaymentFinish_state s id p success t2 t3 t4
  have hst := processPaymentFinish_stats s id p success t2 t3 t4
  have hle2 := countStatus_le s StatusCompleted
  have hle3 := countStatus_le s StatusFailed
  have hle4 := countStatus_le s StatusProcessing
  cases success with
  | true =>
    simp only [if_true] at hfs hst
    obtain ⟨l1, l2, hm, hm1⟩ := SyncMap.Store_present s.payments id p
      { p with Status := StatusCompleted, ProcessedAt := some t2, UpdatedAt := t3 } hl
    have hpay := hfs.1
    rw [hm1] at hpay
    have hlen : (processPaymentFinish s id p true t2 t3 t4).1.payments.length =
        s.payments.length := by
      rw [hpay, hm]; simp
    have hg : ∀ key, getStat (processPaymentFinish s id p true t2 t3 t4).1 key =
        getStat (incrementStat (decrementStat s "processing") "completed") key :=
      fun key => getStat_congr _ _ key hst.1
    have hcnt := countStatus_replace s _ l1 l2 id p _ hm hpay
    have hfa := failedAmount_replace s _ l1 l2 id p _ hm hpay
    simp only [hp] at hcnt hfa
    have hc1 := hcnt StatusPending
    have hc2 := hcnt StatusProcessing
    have hc3 := hcnt StatusCompleted
    have hc4 := hcnt StatusFailed
    simp at hc1 hc2 hc3 hc4 hfa
    have hle1 := countStatus_le (processPaymentFinish s id p true t2 t3 t4).1 StatusProcessing
    have hle5 := countStatus_le (processPaymentFinish s id p true t2 t3 t4).1 StatusCompleted
    have hle6 := countStatus_le (processPaymentFinish s id p true t2 t3 t4).1 StatusFailed
    refine ⟨⟨?_, ?_, ?_, ?_, ?_, ?_⟩, hlen⟩
    · rw [hg, getStat_incrementStat_ne _ _ _ (by decide),
        getStat_decrementStat_ne _ _ _ (by decide), h.total, hlen]
    · rw [hg, getStat_incrementStat_ne _ _ _ (by decide),
        getStat_decrementStat_ne _ _ _ (by decide), h.pending]
      omega
    · rw [hg, getStat_incrementStat_ne _ _ _ (by decide), getStat_decrementStat_self,
        h.processing]
      have hpos : countStatus s StatusProcessing > 0 := by omega
      rw [if_pos hpos]
      omega
    · rw [hg, getStat_incrementStat_self, getStat_decrementStat_ne _ _ _ (by decide),
        h.completed]
      rw [wrapInt64_of_bounds _ (by omega) (by omega)]
      omega
    · rw [hg, getStat_incrementStat_ne _ _ _ (by decide),
        getStat_decrementStat_ne _ _ _ (by decide), h.failed]
      omega
    · rw [getAmount_congr _ _ hst.2, h.amount]
      omega
  | false =>
    simp only [Bool.false_eq_true, if_false] at hfs hst
    obtain ⟨l1, l2, hm, hm1⟩ := SyncMap.Store_present s.payments id p
      { p with Status := StatusFailed, UpdatedAt := t3 } hl
    have hpay := hfs.1
    rw [hm1] at hpay
    have hlen : (processPaymentFinish s id p false t2 t3 t4).1.payments.length =
        s.payments.length := by
      rw [hpay, hm]; simp
    have hg : ∀ key, getStat (processPaymentFinish s id p false t2 t3 t4).1 key =
        getStat (incrementStat (decrementStat s "processing") "failed") key :=
      fun key => getStat_congr _ _ key hst.1
    have hcnt := countStatus_replace s _ l1 l2 id p _ hm hpay
    have hfa := failedAmount_replace s _ l1 l2 id p _ hm hpay
    simp only [hp] at hcnt hfa
    have hc1 := hcnt StatusPending
    have hc2 := hcnt StatusProcessing
    have hc3 := hcnt StatusCompleted
    have hc4 := hcnt StatusFailed
    simp at hc1 hc2 hc3 hc4 hfa
    have hle1 := countStatus_le (processPaymentFinish s id p false t2 t3 t4).1 StatusProcessing
    have hle5 := countStatus_le (processPaymentFinish s id p false t2 t3 t4).1 StatusCompleted
    have hle6 := countStatus_le (processPaymentFinish s id p false t2 t3 t4).1 StatusFailed
    refine ⟨⟨?_, ?_, ?_, ?_, ?_, ?_⟩, hlen⟩
    · rw [hg, getStat_incrementStat_ne _ _ _ (by decide),
        getStat_decrementStat_ne _ _ _ (by decide), h.total, hlen]
    · rw [hg, getStat_incrementStat_ne _ _ _ (by decide),
        getStat_decrementStat_ne _ _ _ (by decide), h.pending]
      omega
    · rw [hg, getStat_incrementStat_ne _ _ _ (by decide), getStat_decrementStat_self,
        h.processing]
      have hpos : countStatus s StatusProcessing > 0 := by omega
      rw [if_pos hpos]
      omega
    · rw [hg, getStat_incrementStat_ne _ _ _ (by decide),
        getStat_decrementStat_ne _ _ _ (by decide), h.completed]
      omega
    · rw [hg, getStat_incrementStat_self, getStat_decrementStat_ne _ _ _ (by decide),
        h.failed]
      rw [wrapInt64_of_bounds _ (by omega) (by omega)]
      omega
    · rw [getAmount_congr _ _ hst.2, getAmount_subtractAmount, h.amount]
      omega

theorem statsInv_init : StatsInv NewPaymentService := by
  constructor <;> decide

theorem step_stats (σ σ1 : System) (h : SysInv σ) (a : Action) (hs : σ.step a = some σ1) :
    σ.svc.payments.length ≤ σ1.svc.payments.length ∧
    (StatsInv σ.svc → (σ1.svc.payments.length : Int) < 2 ^ 63 → StatsInv σ1.svc) := by
  cases a with
  | create req id now pick =>
    unfold System.step at hs
    cases hl : SyncMap.Load σ.svc.payments id with
    | some p => simp [hl] at hs
    | none =>
      simp only [hl, Option.some.injEq] at hs
      subst hs
      have hpay : (CreatePayment σ.svc req id now pick).1.payments =
          σ.svc.payments ++ [(id, NewPayment req id now)] := by
        rw [(createPayment_state σ.svc req id now pick).1]
        exact SyncMap.Store_of_Load_none _ _ _ hl
      refine ⟨?_, fun hi hb => stats_create σ.svc req id now pick hl hi hb⟩
      show σ.svc.payments.length ≤ (CreatePayment σ.svc req id now pick).1.payments.length
      rw [hpay, List.length_append]
      exact Nat.le_add_right _ _
  | select pick =>
    unfold System.step at hs
    cases hw : pool.workerSelect σ.svc.workerPool pick with
    | none => simp [hw] at hs
    | some wp =>
      simp only [hw, Option.some.injEq] at hs
      subst hs
      exact ⟨le_refl _, fun hi _ => statsInv_congr σ.svc _ rfl rfl rfl hi⟩
  | begin id t1 =>
    unfold System.step at hs
    by_cases hg : ({ ID := id } : pool.Task) ∈ σ.svc.workerPool.running ∧ id ∉ σ.inFlight
    · simp only [hg, not_false_eq_true, and_self, if_true] at hs
      obtain ⟨p, hp, hpst⟩ := h.pending { ID := id } (List.mem_append_right _ hg.1) hg.2
      change SyncMap.Load σ.svc.payments id = some p at hp
      rw [hp] at hs
      simp only [Option.some.injEq] at hs
      subst hs
      have hlen : (processPaymentBegin σ.svc id p t1).1.payments.length =
          σ.svc.payments.length := by
        obtain ⟨l1, l2, hm, hm1⟩ := SyncMap.Store_present σ.svc.payments id p
          { p with Status := StatusProcessing, UpdatedAt := t1 } hp
        rw [(processPaymentBegin_state σ.svc id p t1).1, hm1, hm]
        simp
      refine ⟨le_of_eq hlen.symm, fun hi hb => ?_⟩
      change ((processPaymentBegin σ.svc id p t1).1.payments.length : Int) < 2 ^ 63 at hb
      rw [hlen] at hb
      exact (stats_begin σ.svc id p t1 hp hpst hi hb).1
    · simp only [hg, if_false] at hs
      cases hs
  | finish id success t2 t3 t4 =>
    unfold System.step at hs
    by_cases hg : id ∈ σ.inFlight
    · simp only [hg, if_true] at hs
      obtain ⟨_, p, hp, hpst⟩ := h.flight id hg
      rw [hp] at hs
      simp only at hs
      cases hw : pool.workerFinish (processPaymentFinish σ.svc id p success t2 t3 t4).1.workerPool
          { ID := id } with
      | none => simp [hw] at hs
      | some wp =>
        simp only [hw, Option.some.injEq] at hs
        subst hs
        have hlen : (processPaymentFinish σ.svc id p success t2 t3 t4).1.payments.length =
            σ.svc.payments.length := by
          obtain ⟨l1, l2, hm, hm1⟩ := SyncMap.Store_present σ.svc.payments id p
            (if success then
              { p with Status := StatusCompleted, ProcessedAt := some t2, UpdatedAt := t3 }
            else { p with Status := StatusFailed, UpdatedAt := t3 }) hp
          rw [(processPaymentFinish_state σ.svc id p success t2 t3 t4).1, hm1, hm]
          simp
        refine ⟨le_of_eq hlen.symm, fun hi hb => ?_⟩
        change ((processPaymentFinish σ.svc id p success t2 t3 t4).1.payments.length : Int)
          < 2 ^ 63 at hb
        rw [hlen] at hb
        exact statsInv_congr (processPaymentFinish σ.svc id p success t2 t3 t4).1 _ rfl rfl rfl
          (stats_finish σ.svc id p success t2 t3 t4 hp hpst hi hb).1
    · simp only [hg, if_false] at hs
      cases hs

theorem run_stats (as : List Action) : ∀ σ σ1 : System, SysInv σ →
    ((σ.svc.payments.length : Int) < 2 ^ 63 → StatsInv σ.svc) → σ.run as = some σ1 →
    (σ1.svc.payments.length : Int) < 2 ^ 63 → StatsInv σ1.svc := by
  induction as with
  | nil =>
    intro σ σ1 _ hi hr hb
    simp only [System.run, Option.some.injEq] at hr
    subst hr
    exact hi hb
  | cons a rest ih =>
    intro σ σ1 h hi hr hb
    unfold System.run at hr
    cases hs : σ.step a with
    | none => simp [hs] at hr
    | some σ2 =>
      simp only [hs] at hr
      have h2 := step_inv σ σ2 h a hs
      have h3 := step_stats σ σ2 h a hs
      refine ih σ2 σ1 h2.1 (fun hb2 => h3.2 (hi ?_) hb2) hr hb
      have : (σ.svc.payments.length : Int) ≤ (σ2.svc.payments.length : Int) :=
        Int.ofNat_le.mpr h3.1
      omega

/-- The statistics in every state of a run from `NewPaymentService()`, as long as
the store holds fewer than `2 ^ 63` payments: `total` is the number of stored
payments, `pending`, `processing`, `completed` and `failed` are the numbers of
stored payments in these statuses, and `total_amount` is minus the sum of the
amounts of the Failed payments (the amount of a payment is never added). -/
theorem getStats_projection (as : List Action) (σ : System) (goroutines : Int)
    (h : System.init.run as = some σ) (hb : (σ.svc.payments.length : Int) < 2 ^ 63) :
    (GetStats σ.svc goroutines).TotalPayment = (σ.svc.payments.length : Int) ∧
    (GetStats σ.svc goroutines).PendingPayments = countStatus σ.svc StatusPending ∧
    (GetStats σ.svc goroutines).ProcessingPayments = countStatus σ.svc StatusProcessing ∧
    (GetStats σ.svc goroutines).CompletedPayments = countStatus σ.svc StatusCompleted ∧
    (GetStats σ.svc goroutines).FailedPayments = countStatus σ.svc StatusFailed ∧
    (GetStats σ.svc goroutines).TotalAmount = - failedAmount σ.svc := by
  have hi := run_stats as System.init σ inv_init (fun _ => statsInv_init) h hb
  exact ⟨hi.total, hi.pending, hi.processing, hi.completed, hi.failed, hi.amount⟩

end service

namespace rate

theorem allowAt_fields (unit : Nat) (lim : Limiter) (now : Nat) :
    (lim.AllowAt unit now).1.limit = lim.limit ∧ (lim.AllowAt unit now).1.burst = lim.burst := by
  unfold Limiter.AllowAt
  by_cases h : unit ≤ lim.advanceAt unit now
  · rw [if_pos h]; exact ⟨rfl, rfl⟩
  · rw [if_neg h]; exact ⟨rfl, rfl⟩

theorem advance_level (unit : Nat) (lim : Limiter) (N now j : Nat) (h : Level unit lim N now j) :
    lim.advanceAt unit now = j * unit := by
  obtain ⟨hb, ht, hj, hl⟩ := h
  unfold Limiter.advanceAt
  rw [hb, ht]
  rcases hl with hl | hl
  · subst hl
    exact Nat.min_eq_left (Nat.le_add_right _ _)
  · rw [hl, Nat.sub_self, Nat.zero_mul, Nat.add_zero]
    exact Nat.min_eq_right (Nat.mul_le_mul_right _ hj)

theorem allow_level_succ (unit : Nat) (lim : Limiter) (N now j : Nat)
    (h : Level unit lim N now (j + 1)) :
    (lim.AllowAt unit now).2 = true ∧ Level unit (lim.AllowAt unit now).1 N now j := by
  have ha := advance_level unit lim N now (j + 1) h
  obtain ⟨hb, _, hj, _⟩ := h
  have hn : unit ≤ lim.advanceAt unit now := by
    rw [ha]; exact Nat.le_mul_of_pos_left _ (Nat.succ_pos j)
  unfold Limiter.AllowAt
  rw [if_pos hn]
  refine ⟨rfl, hb, ?_, by omega, Or.inr rfl⟩
  show lim.advanceAt unit now - unit = j * unit
  rw [ha, Nat.succ_mul, Nat.add_sub_cancel]

theorem allowAllAt_append (unit : Nat) (ts us : List Nat) : ∀ lim : Limiter,
    lim.allowAllAt unit (ts ++ us) =
      lim.allowAllAt unit ts ++
        (ts.foldl (fun l t => (l.AllowAt unit t).1) lim).allowAllAt unit us := by
  induction ts with
  | nil => intro lim; rfl
  | cons t ts ih =>
    intro lim
    show (lim.AllowAt unit t).2 :: (lim.AllowAt unit t).1.allowAllAt unit (ts ++ us) = _
    rw [ih]
    rfl

theorem allowAllAt_burst (unit now N : Nat) (j : Nat) : ∀ lim : Limiter, Level unit lim N now j →
    lim.allowAllAt unit (List.replicate j now) = List.replicate j true ∧
    Level unit ((List.replicate j now).foldl (fun l t => (l.AllowAt unit t).1) lim) N now 0 := by
  induction j with
  | zero => intro lim h; exact ⟨rfl, h⟩
  | succ j ih =>
    intro lim h
    have h1 := allow_level_succ unit lim N now j h
    have h2 := ih _ h1.2
    refine ⟨?_, ?_⟩
    · show (lim.AllowAt unit now).2 ::
        (lim.AllowAt unit now).1.allowAllAt unit (List.replicate j now) = true :: List.replicate j true
      rw [h1.1, h2.1]
    · exact h2.2

/-- From an empty bucket last refilled at `now`, with checks at times that never
decrease, a check is allowed only `1 / limit` seconds after `now`. -/
theorem allowAllAt_wait (unit : Nat) (hu : 0 < unit) (now N : Nat) (ts : List Nat) :
    ∀ lim : Limiter,
    (Level unit lim N now 0 ∨ ∀ t ∈ ts, unit ≤ (t - now) * lim.limit) →
    ts.Pairwise (fun a b => a ≤ b) →
    ∀ x ∈ ts.zip (lim.allowAllAt unit ts), x.2 = true → unit ≤ (x.1 - now) * lim.limit := by
  induction ts with
  | nil => intro lim _ _ x hx; simp at hx
  | cons t ts ih =>
    intro lim h hp x hx hxt
    rw [List.pairwise_cons] at hp
    simp only [Limiter.allowAllAt, List.zip_cons_cons, List.mem_cons] at hx
    have hlim := (allowAt_fields unit lim t).1
    have hmono : unit ≤ (t - now) * lim.limit → ∀ u ∈ ts, unit ≤ (u - now) * lim.limit := by
      intro hle u hu
      have := hp.1 u hu
      exact le_trans hle (Nat.mul_le_mul_right _ (Nat.sub_le_sub_right this now))
    rcases h with h | h
    · by_cases hn : unit ≤ lim.advanceAt unit t
      · have hwait : unit ≤ (t - now) * lim.limit := by
          obtain ⟨hb, ht, _, hl⟩ := h
          unfold Limiter.advanceAt at hn
          rw [ht] at hn
          have hn2 := le_trans hn (Nat.min_le_right _ _)
          rcases hl with hl | hl
          · have hn1 := le_trans hn (Nat.min_le_left _ _)
            rw [hb, ← hl, Nat.zero_mul] at hn1
            omega
          · rw [hl, Nat.zero_mul, Nat.zero_add] at hn2
            exact hn2
        rcases hx with hx | hx
        · subst hx; exact hwait
        · have := ih (lim.AllowAt unit t).1 (Or.inr (by rw [hlim]; exact hmono hwait)) hp.2 x hx hxt
          rw [hlim] at this
          exact this
      · have hsame : lim.AllowAt unit t = (lim, false) := by
          unfold Limiter.AllowAt
          rw [if_neg hn]
        rw [hsame] at hx
        rcases hx with hx | hx
        · subst hx; cases hxt
        · exact ih lim (Or.inl h) hp.2 x hx hxt
    · rcases hx with hx | hx
      · subst hx; exact h t (List.mem_cons_self _ _)
      · have := ih (lim.AllowAt unit t).1
          (Or.inr (by rw [hlim]; exact fun u hu => h u (List.mem_cons_of_mem _ hu))) hp.2 x hx hxt
        rw [hlim] at this
        exact this

theorem allowAt_level_zero (unit : Nat) (hu : 0 < unit) (lim : Limiter) (N now : Nat)
    (h : Level unit lim N now 0) : lim.AllowAt unit now = (lim, false) := by
  have ha := advance_level unit lim N now 0 h
  unfold Limiter.AllowAt
  have hn : ¬ unit ≤ lim.advanceAt unit now := by rw [ha]; omega
  rw [if_neg hn]

theorem allowAllAt_length (unit : Nat) (ts : List Nat) : ∀ lim : Limiter,
    (lim.allowAllAt unit ts).length = ts.length := by
  induction ts with
  | nil => intro lim; rfl
  | cons t ts ih =>
    intro lim
    show ((lim.AllowAt unit t).2 :: (lim.AllowAt unit t).1.allowAllAt unit ts).length = _
    rw [List.length_cons, ih, List.length_cons]

theorem level_new (unit r N now : Nat) : Level unit (NewLimiterAt unit r N) N now N :=
  ⟨rfl, rfl, le_refl _, Or.inl rfl⟩

theorem foldl_limit (unit : Nat) (ts : List Nat) : ∀ lim : Limiter,
    (ts.foldl (fun l t => (l.AllowAt unit t).1) lim).limit = lim.limit := by
  induction ts with
  | nil => intro lim; rfl
  | cons t ts ih =>
    intro lim
    rw [List.foldl_cons, ih, (allowAt_fields unit lim t).1]

/-- A new bucket of capacity `N` and rate `r`, checked `N + 1` times at the
instant `now` and then at the times `ts`, which never decrease: the first `N`
checks are allowed, the next is rejected, and every later check that is allowed
comes at least `1 / r` seconds after `now`. -/
theorem allowAllAt_new (unit : Nat) (hu : 0 < unit) (r N now : Nat) (ts : List Nat)
    (hts : ts.Pairwise (fun a b => a ≤ b)) :
    ∃ rest : List Bool,
      (NewLimiterAt unit r N).allowAllAt unit (List.replicate (N + 1) now ++ ts) =
        List.replicate N true ++ false :: rest ∧
      rest.length = ts.length ∧
      ∀ x ∈ ts.zip rest, x.2 = true → unit ≤ (x.1 - now) * r := by
  have hb := allowAllAt_burst unit now N N (NewLimiterAt unit r N) (level_new unit r N now)
  have hlim : ((List.replicate N now).foldl (fun l t => (l.AllowAt unit t).1)
      (NewLimiterAt unit r N)).limit = r := foldl_limit unit _ _
  have hz := allowAt_level_zero unit hu _ N now hb.2
  refine ⟨((List.replicate N now).foldl (fun l t => (l.AllowAt unit t).1)
      (NewLimiterAt unit r N)).allowAllAt unit ts, ?_, allowAllAt_length unit ts _, ?_⟩
  · have hrep : List.replicate (N + 1) now ++ ts = List.replicate N now ++ (now :: ts) := by
      rw [List.replicate_succ', List.append_assoc]; rfl
    rw [hrep, allowAllAt_append, hb.1]
    congr 1
    show (Limiter.AllowAt unit _ now).2 :: Limiter.allowAllAt unit (Limiter.AllowAt unit _ now).1 ts
      = _
    rw [hz]
  · intro x hx hxt
    have := allowAllAt_wait unit hu now N ts _ (Or.inl hb.2) hts x hx hxt
    rw [hlim] at this
    exact this

end rate

namespace middleware

/-- C9, evaluated, with the limiter of main.go (10 tokens a second, burst 10):
eleven requests of "alice" on one connection at one instant are let through ten
times and then rejected. The key stored for her bucket is the string `c.Get`
returned, a view of the buffer of that connection. Once the server has parsed
the header "bobby" of a later request into that buffer, a request of "alice" on
a second connection, at the same instant, finds no bucket: it is let through at
once, and a second limiter is allocated and stored. -/
theorem alias_key_readmitted :
    (serve (NewRateLimiter 10 10) (List.replicate 11 (aliceFirst 7) ++ [aliceSecond 7])).2 =
      List.replicate 10 Verdict.next ++ [Verdict.tooManyRequests "alice", Verdict.next] ∧
    (serve (NewRateLimiter 10 10) (List.replicate 11 (aliceFirst 7))).1.limiters =
      [(GoString.view 1 5, 0)] ∧
    (serve (NewRateLimiter 10 10)
        (List.replicate 11 (aliceFirst 7) ++ [aliceSecond 7])).1.limiters =
      [(GoString.view 1 5, 0), (GoString.view 2 5, 1)] ∧
    (serve (NewRateLimiter 10 10) (List.replicate 11 (aliceFirst 7) ++ [aliceSecond 7])).1.next
      = 2 := by
  decide

theorem allowAll_cons (lim : rate.Limiter) (t : Nat) (ts : List Nat) :
    lim.allowAll (t :: ts) = (lim.Allow t).2 :: (lim.Allow t).1.allowAll ts := rfl

theorem loadKey_cons (mem : Memory) (k : GoString) (v : Nat) (rest : List (GoString × Nat))
    (key : GoString) :
    loadKey mem ((k, v) :: rest) key =
      if k.read mem = key.read mem then some v else loadKey mem rest key := rfl

theorem loadKey_owned (mem : Memory) (l : List (GoString × Nat)) (k : String)
    (h : ∀ e ∈ l, ∃ s, e.1 = GoString.owned s) :
    loadKey mem l (GoString.owned k) = loadKey (fun _ => []) l (GoString.owned k) := by
  induction l with
  | nil => rfl
  | cons e rest ih =>
    obtain ⟨k0, v0⟩ := e
    obtain ⟨s, hs⟩ := h (k0, v0) (List.mem_cons_self _ _)
    simp only at hs
    subst hs
    have ih2 := ih (fun e he => h e (List.mem_cons_of_mem _ he))
    rw [loadKey_cons, loadKey_cons, ih2]
    rfl

theorem loadKey_some_mem (l : List (GoString × Nat)) (k : String) (p : Nat)
    (h : ∀ e ∈ l, ∃ s, e.1 = GoString.owned s)
    (hl : loadKey (fun _ => []) l (GoString.owned k) = some p) :
    (GoString.owned k, p) ∈ l := by
  induction l with
  | nil => cases hl
  | cons e rest ih =>
    obtain ⟨k0, v0⟩ := e
    obtain ⟨s, hs⟩ := h (k0, v0) (List.mem_cons_self _ _)
    simp only at hs
    subst hs
    rw [loadKey_cons] at hl
    by_cases hk : s = k
    · subst hk
      have hr : (GoString.owned s).read (fun _ => []) =
          (GoString.owned s).read (fun _ => []) := rfl
      rw [if_pos hr] at hl
      cases hl
      exact List.mem_cons_self _ _
    · have hr : ¬ (GoString.owned s).read (fun _ => []) =
          (GoString.owned k).read (fun _ => []) := hk
      rw [if_neg hr] at hl
      exact List.mem_cons_of_mem _ (ih (fun e he => h e (List.mem_cons_of_mem _ he)) hl)

theorem loadKey_none_not_mem (l : List (GoString × Nat)) (k : String)
    (hl : loadKey (fun _ => []) l (GoString.owned k) = none) :
    GoString.owned k ∉ l.map (fun e => e.1) := by
  induction l with
  | nil => simp
  | cons e rest ih =>
    obtain ⟨k0, v0⟩ := e
    rw [loadKey_cons] at hl
    by_cases hk : k0.read (fun _ => []) = (GoString.owned k).read (fun _ => [])
    · rw [if_pos hk] at hl
      cases hl
    · rw [if_neg hk] at hl
      simp only [List.map_cons, List.mem_cons, not_or]
      refine ⟨?_, ih hl⟩
      intro heq
      rw [← heq] at hk
      exact hk rfl

theorem loadKey_append (mem : Memory) (l : List (GoString × Nat)) (k0 key : GoString)
    (v : Nat) :
    loadKey mem (l ++ [(k0, v)]) key =
      match loadKey mem l key with
      | some p => some p
      | none => if k0.read mem = key.read mem then some v else none := by
  induction l with
  | nil => rfl
  | cons e rest ih =>
    obtain ⟨k1, v1⟩ := e
    rw [List.cons_append, loadKey_cons, loadKey_cons, ih]
    by_cases hk : k1.read mem = key.read mem
    · rw [if_pos hk, if_pos hk]
    · rw [if_neg hk, if_neg hk]

theorem ownedInit (rps burst : Nat) : Owned (NewRateLimiter rps burst) := by
  constructor
  · intro e he; simp [NewRateLimiter] at he
  · exact List.nodup_nil
  · exact List.nodup_nil
  · intro e he; simp [NewRateLimiter] at he

/-- `getLimiter` for a key that has a stored pointer: nothing is written. -/
theorem getLimiter_hit (rl : RateLimiter) (mem : Memory) (userID : GoString) (p : Nat)
    (h : loadKey mem rl.limiters userID = some p) : getLimiter rl mem userID = (rl, p) := by
  unfold getLimiter
  rw [h]

/-- `getLimiter` for a key without a stored pointer: a limiter is allocated at
the next address and its pointer is stored under the key. -/
theorem getLimiter_miss (rl : RateLimiter) (mem : Memory) (userID : GoString)
    (h : loadKey mem rl.limiters userID = none) :
    (getLimiter rl mem userID).2 = rl.next ∧
    (getLimiter rl mem userID).1.limiters = rl.limiters ++ [(userID, rl.next)] ∧
    (getLimiter rl mem userID).1.next = rl.next + 1 ∧
    (∀ x, (getLimiter rl mem userID).1.heap x =
      if x = rl.next then rate.NewLimiter rl.requestPerSecond rl.burst else rl.heap x) ∧
    (getLimiter rl mem userID).1.requestPerSecond = rl.requestPerSecond ∧
    (getLimiter rl mem userID).1.burst = rl.burst := by
  have hg : getLimiter rl mem userID =
      ({ limiters := rl.limiters ++ [(userID, rl.next)]
         heap := fun a =>
           if a = rl.next then rate.NewLimiter rl.requestPerSecond rl.burst else rl.heap a
         next := rl.next + 1
         requestPerSecond := rl.requestPerSecond
         burst := rl.burst }, rl.next) := by
    unfold getLimiter
    rw [h]
    simp only [loadOrStoreKey, h]
  rw [hg]
  exact ⟨rfl, rfl, rfl, fun _ => rfl, rfl, rfl⟩

/-- What the handler leaves: the map, the allocation and the configuration of
`getLimiter`, and the heap with the limiter of the key updated by `Allow()`; the
request goes on exactly when `Allow()` returns true. -/
theorem middleware_result (rl : RateLimiter) (mem : Memory) (header : GoString) (ip : String)
    (now : Nat) (userID : GoString)
    (hu : userID = if header.read mem = "" then GoString.owned ip else header) :
    (Middleware rl mem header ip now).1.limiters = (getLimiter rl mem userID).1.limiters ∧
    (Middleware rl mem header ip now).1.next = (getLimiter rl mem userID).1.next ∧
    (Middleware rl mem header ip now).1.requestPerSecond =
      (getLimiter rl mem userID).1.requestPerSecond ∧
    (Middleware rl mem header ip now).1.burst = (getLimiter rl mem userID).1.burst ∧
    (∀ x, (Middleware rl mem header ip now).1.heap x =
      if x = (getLimiter rl mem userID).2 then
        (((getLimiter rl mem userID).1.heap (getLimiter rl mem userID).2).Allow now).1
      else (getLimiter rl mem userID).1.heap x) ∧
    ((Middleware rl mem header ip now).2 = Verdict.next ↔
      (((getLimiter rl mem userID).1.heap (getLimiter rl mem userID).2).Allow now).2 = true) := by
  subst hu
  refine ⟨rfl, rfl, rfl, rfl, fun _ => rfl, ?_⟩
  show (if !(((getLimiter rl mem (if header.read mem = "" then GoString.owned ip
      else header)).1.heap (getLimiter rl mem (if header.read mem = "" then GoString.owned ip
      else header)).2).Allow now).2 then Verdict.tooManyRequests _ else Verdict.next) =
      Verdict.next ↔ _
  cases (((getLimiter rl mem (if header.read mem = "" then GoString.owned ip
      else header)).1.heap (getLimiter rl mem (if header.read mem = "" then GoString.owned ip
      else header)).2).Allow now).2 <;> simp

/-- One request without the header, on a limiter whose keys own their bytes:
its verdict is that of `Allow()` on the bucket of its address, which becomes
the updated bucket of that address; the buckets of the other addresses are
untouched. -/
theorem middleware_byIP (rl : RateLimiter) (h : Owned rl) (mem : Memory) (ip : String)
    (now : Nat) :
    ((Middleware rl mem (GoString.owned "") ip now).2 = Verdict.next ↔
      ((keyBucket rl ip).Allow now).2 = true) ∧
    keyBucket (Middleware rl mem (GoString.owned "") ip now).1 ip =
      ((keyBucket rl ip).Allow now).1 ∧
    (∀ k, k ≠ ip →
      keyBucket (Middleware rl mem (GoString.owned "") ip now).1 k = keyBucket rl k) ∧
    Owned (Middleware rl mem (GoString.owned "") ip now).1 ∧
    (Middleware rl mem (GoString.owned "") ip now).1.requestPerSecond = rl.requestPerSecond ∧
    (Middleware rl mem (GoString.owned "") ip now).1.burst = rl.burst := by
  have hlo := loadKey_owned mem rl.limiters ip h.keys
  have hm := middleware_result rl mem (GoString.owned "") ip now (GoString.owned ip) rfl
  obtain ⟨hml, hmn, hmr, hmb, hmh, hmv⟩ := hm
  cases hl : loadKey (fun _ => []) rl.limiters (GoString.owned ip) with
  | some p =>
    have hg := getLimiter_hit rl mem (GoString.owned ip) p (by rw [hlo, hl])
    rw [hg] at hml hmn hmr hmb hmh hmv
    simp only at hml hmn hmr hmb hmh hmv
    have hkb : keyBucket rl ip = rl.heap p := by unfold keyBucket; rw [hl]
    have hmem := loadKey_some_mem rl.limiters ip p h.keys hl
    rw [← hkb] at hmh hmv
    refine ⟨hmv, ?_, ?_, ?_, hmr, hmb⟩
    · simp only [keyBucket, hml, hl, hmh, if_true]
    · intro k hk
      simp only [keyBucket, hml, hmr, hmb]
      cases hq : loadKey (fun _ => []) rl.limiters (GoString.owned k) with
      | none => rfl
      | some q =>
        have hm2 := loadKey_some_mem rl.limiters k q h.keys hq
        have hne : q ≠ p := by
          intro heq
          subst heq
          have := List.inj_on_of_nodup_map h.ptrsNodup hm2 hmem rfl
          simp only [Prod.mk.injEq, GoString.owned.injEq, and_true] at this
          exact hk this
        simp only [hmh, hne, if_false]
    · constructor
      · rw [hml]; exact h.keys
      · rw [hml]; exact h.keysNodup
      · rw [hml]; exact h.ptrsNodup
      · rw [hml, hmn]; exact h.allocated
  | none =>
    have hg := getLimiter_miss rl mem (GoString.owned ip) (by rw [hlo, hl])
    obtain ⟨hg2, hgl, hgn, hgh, hgr, hgb⟩ := hg
    rw [hg2] at hmh hmv
    rw [hgl] at hml
    rw [hgn] at hmn
    rw [hgr] at hmr
    rw [hgb] at hmb
    have hnext : (getLimiter rl mem (GoString.owned ip)).1.heap rl.next =
        rate.NewLimiter rl.requestPerSecond rl.burst := by
      rw [hgh, if_pos rfl]
    rw [hnext] at hmh hmv
    have hkb : keyBucket rl ip = rate.NewLimiter rl.requestPerSecond rl.burst := by
      unfold keyBucket; rw [hl]
    rw [← hkb] at hmh hmv
    have hnew : loadKey (fun _ => []) (rl.limiters ++ [(GoString.owned ip, rl.next)])
        (GoString.owned ip) = some rl.next := by
      rw [loadKey_append, hl]
      exact if_pos rfl
    have hother : ∀ k, k ≠ ip →
        loadKey (fun _ => []) (rl.limiters ++ [(GoString.owned ip, rl.next)]) (GoString.owned k) =
          loadKey (fun _ => []) rl.limiters (GoString.owned k) := by
      intro k hk
      rw [loadKey_append]
      cases loadKey (fun _ => []) rl.limiters (GoString.owned k) with
      | none =>
        have hr : ¬ (GoString.owned ip).read (fun _ => []) =
            (GoString.owned k).read (fun _ => []) := fun heq => hk heq.symm
        exact if_neg hr
      | some q => rfl
    refine ⟨hmv, ?_, ?_, ?_, hmr, hmb⟩
    · simp only [keyBucket, hml, hnew, hmh, if_true]
    · intro k hk
      simp only [keyBucket, hml, hmr, hmb, hother k hk]
      cases hq : loadKey (fun _ => []) rl.limiters (GoString.owned k) with
      | none => rfl
      | some q =>
        have hm2 := loadKey_some_mem rl.limiters k q h.keys hq
        have hlt := h.allocated _ hm2
        have hne : q ≠ rl.next := by
          intro heq
          rw [heq] at hlt
          exact Nat.lt_irrefl _ hlt
        simp only [hmh, hgh, hne, if_false]
    · constructor
      · rw [hml]
        intro e he
        rcases List.mem_append.mp he with he | he
        · exact h.keys e he
        · simp only [List.mem_singleton] at he
          exact ⟨ip, by rw [he]⟩
      · rw [hml, List.map_append, List.map_singleton]
        refine List.Nodup.append h.keysNodup (List.nodup_singleton _) ?_
        intro a ha ha1
        rw [List.mem_singleton] at ha1
        subst ha1
        exact loadKey_none_not_mem rl.limiters ip hl ha
      · rw [hml, List.map_append, List.map_singleton]
        refine List.Nodup.append h.ptrsNodup (List.nodup_singleton _) ?_
        intro a ha ha1
        rw [List.mem_singleton] at ha1
        subst ha1
        obtain ⟨e, he, heq⟩ := List.mem_map.mp ha
        have := h.allocated e he
        omega
      · rw [hml, hmn]
        intro e he
        rcases List.mem_append.mp he with he | he
        · exact Nat.lt_succ_of_lt (h.allocated e he)
        · simp only [List.mem_singleton] at he
          rw [he]
          exact Nat.lt_succ_self _

/-- The verdicts for one address depend only on the times of its own requests:
they are those of its bucket checked at these times; and the keys stay owned. -/
theorem ipVerdicts_eq (ip : String) (cs : List (Memory × String × Nat)) :
    ∀ rl : RateLimiter, Owned rl →
    ipVerdicts rl cs ip = (keyBucket rl ip).allowAll (ipTimes cs ip) ∧
    Owned (serve rl (ipRequests cs)).1 := by
  induction cs with
  | nil => intro rl h; exact ⟨rfl, h⟩
  | cons c cs ih =>
    intro rl h
    obtain ⟨mem, k, t⟩ := c
    have hm := middleware_byIP rl h mem k t
    have hih := ih (Middleware rl mem (GoString.owned "") k t).1 hm.2.2.2.1
    refine ⟨?_, hih.2⟩
    have hv := hih.1
    unfold ipVerdicts at hv ⊢
    unfold ipTimes at hv ⊢
    simp only [ipRequests, List.map_cons, serve, byIP, List.zip_cons_cons] at hv ⊢
    by_cases hkk : k = ip
    · subst hkk
      simp only [List.filter_cons, decide_True, if_true, List.map_cons]
      rw [allowAll_cons, hv, hm.2.1]
      congr 1
      cases hb : ((keyBucket rl k).Allow t).2
      · have : ¬ (Middleware rl mem (GoString.owned "") k t).2 = Verdict.next := by
          intro hn
          rw [hm.1, hb] at hn
          cases hn
        simp [this]
      · have : (Middleware rl mem (GoString.owned "") k t).2 = Verdict.next := by
          rw [hm.1, hb]
        simp [this]
    · simp only [List.filter_cons, hkk, decide_False, Bool.false_eq_true, if_false]
      rw [hv, hm.2.2.1 ip (Ne.symm hkk)]

/-- With keys that own their bytes the limiter does what is asked of it. For the
limiter of `NewRateLimiter(rps, burst)` and requests without the header, keyed by
`c.IP()`, in any order and from any addresses: when the first `burst + 1`
requests of an address come at one instant `now`, the first `burst` are let
through and the next is rejected, every later one that is let through comes at
least `1 / rps` seconds after `now`, and no key is stored twice. -/
theorem ip_key_burst (rps burst : Nat) (cs : List (Memory × String × Nat)) (ip : String)
    (now : Nat) (ts : List Nat)
    (htimes : ipTimes cs ip = List.replicate (burst + 1) now ++ ts)
    (hts : ts.Pairwise (fun a b => a ≤ b)) :
    (∃ rest : List Bool,
      ipVerdicts (NewRateLimiter rps burst) cs ip =
        List.replicate burst true ++ false :: rest ∧
      rest.length = ts.length ∧
      ∀ x ∈ ts.zip rest, x.2 = true → rate.nano ≤ (x.1 - now) * rps) ∧
    ((serve (NewRateLimiter rps burst) (ipRequests cs)).1.limiters.map (fun e => e.1)).Nodup := by
  have h := ipVerdicts_eq ip cs (NewRateLimiter rps burst) (ownedInit rps burst)
  refine ⟨?_, h.2.keysNodup⟩
  obtain ⟨rest, h1, h2, h3⟩ := rate.allowAllAt_new rate.nano (by decide) rps burst now ts hts
  refine ⟨rest, ?_, h2, h3⟩
  rw [h.1, htimes]
  exact h1

end middleware

namespace handler

open model service

/-- C3, amended: validation is done by `PaymentHandler.CreatePayment`. For a
request whose user id is empty, whose amount is not greater than 0, or whose
currency is not 3 bytes long, the handler answers 400 with an error and does
not call the service: the service, and with it the store, the statistics and
the pool, is as before. -/
theorem createPayment_rejects_invalid (s : PaymentService) (parseErr : Option String)
    (req : CreatePaymentRequest) (id : String) (now pick : Nat)
    (hbad : req.UserID = "" ∨ req.Amount ≤ 0 ∨ req.Currency.utf8ByteSize ≠ 3) :
    ∃ error message : String,
      CreatePayment s parseErr req id now pick =
        (s, Outcome.ret (Response.fail 400 error message)) := by
  unfold CreatePayment
  cases parseErr with
  | some err => exact ⟨_, _, rfl⟩
  | none =>
    simp only
    by_cases h1 : req.UserID = ""
    · rw [if_pos h1]; exact ⟨_, _, rfl⟩
    · rw [if_neg h1]
      by_cases h2 : req.Amount ≤ 0
      · rw [if_pos h2]; exact ⟨_, _, rfl⟩
      · rw [if_neg h2]
        by_cases h3 : req.Currency.utf8ByteSize ≠ 3
        · rw [if_pos h3]; exact ⟨_, _, rfl⟩
        · rcases hbad with h | h | h
          · exact absurd h h1
          · exact absurd h h2
          · exact absurd h h3

/-- C3, amended, at a request with a currency of two letters. -/
theorem createPayment_rejects_invalid_witness :
    ("US" : String).utf8ByteSize ≠ 3 ∧
    ∃ error message : String,
      CreatePayment NewPaymentService none
          { UserID := "u1", Amount := 10, Currency := "US", Description := "" } "p1" 0 0 =
        (NewPaymentService, Outcome.ret (Response.fail 400 error message)) :=
  ⟨by decide,
    createPayment_rejects_invalid NewPaymentService none
      { UserID := "u1", Amount := 10, Currency := "US", Description := "" } "p1" 0 0
      (Or.inr (Or.inr (by decide)))⟩

/-- The handler measures the currency in bytes: a request whose currency is the
single character "€", three bytes long, passes the checks and is created. -/
theorem createPayment_three_bytes :
    (CreatePayment NewPaymentService none
        { UserID := "u1", Amount := 10, Currency := "€", Description := "" } "p1" 0 0).2 =
      Outcome.ret (Response.created 201
        { PaymentID := "p1", Status := StatusPending,
          Message := "Payment queue for processing" }) := by
  decide

end handler
